import Mathlib

/-!
Verification development for the GCLQL query compiler
(`backend/app/utils/gclql_query_parser_utils.py` together with the helpers it
uses from `errors_utils.py` and `sql_utils.py`).

The Python code is shallowly embedded: Python strings are Lean `String`s,
Python `dict`s are insertion-ordered association lists, Python `set`s are
duplicate-free lists (only membership and sorted enumeration are used),
Python exceptions are `Except` errors.  All definitions are executable.
-/

namespace Gclql

/-! ## Python value model

Values flowing through the pipeline are Python `str` / `int` / `float` /
`None`, plus `datetime` objects produced by `parse_date_string`.  A float is
carried as its source text (the code never computes with floats; they are
only stored as parameters and stringified, and no claim depends on float
arithmetic or canonical float formatting). -/

inductive PyVal where
  | vstr (s : String)
  | vint (n : Int)
  | vfloat (s : String)
  | vdate (s : String)
  | vnone
  deriving DecidableEq, Repr

def PyVal.isStr : PyVal → Bool
  | .vstr _ => true
  | _ => false

def PyVal.isNumeric : PyVal → Bool
  | .vint _ => true
  | .vfloat _ => true
  | _ => false

def PyVal.isInt : PyVal → Bool
  | .vint _ => true
  | _ => false

/-! ## String helpers (modelled on the exact Python semantics used) -/

/-- ASCII whitespace as matched by Python `str.strip()` / `\s`. -/
def isPyWs (c : Char) : Bool :=
  c = ' ' ∨ c = '\t' ∨ c = '\n' ∨ c = '\r' ∨ c = '\x0b' ∨ c = '\x0c'

def pyStripL (cs : List Char) : List Char :=
  ((cs.dropWhile isPyWs).reverse.dropWhile isPyWs).reverse

/-- Python `str.strip()`. -/
def pyStrip (s : String) : String := String.mk (pyStripL s.toList)

def lowerStr (s : String) : String := String.mk (s.toList.map Char.toLower)

def upperStr (s : String) : String := String.mk (s.toList.map Char.toUpper)

/-- Substring test (Python `needle in haystack`). -/
def containsSubL (hay pat : List Char) : Bool :=
  match hay with
  | [] => pat.isEmpty
  | _ :: t => pat.isPrefixOf hay || containsSubL t pat

def containsSub (hay pat : String) : Bool := containsSubL hay.toList pat.toList

/-- Decimal digits, most significant first; structural recursion on a fuel
argument so that it reduces definitionally (`n + 1` units always suffice
because `n / 10 < n`). -/
def natDigitsAux : Nat → Nat → List Char
  | _, 0 => []
  | n, fuel + 1 =>
    if n < 10 then [Nat.digitChar n]
    else natDigitsAux (n / 10) fuel ++ [Nat.digitChar (n % 10)]

/-- Decimal digits of a natural number, most significant first. -/
def natDigits (n : Nat) : List Char := natDigitsAux n (n + 1)

def natStr (n : Nat) : String := String.mk (natDigits n)

/-- Python `str(int)`. -/
def intStr (n : Int) : String :=
  if n < 0 then "-" ++ natStr n.natAbs else natStr n.natAbs

/-- Python `str(value)` for the values the pipeline stringifies.  A float is
rendered as its source text (modelling note: Python would canonicalise the
float, e.g. `1.50` → `1.5`; no claim distinguishes these). -/
def pyStr : PyVal → String
  | .vstr s => s
  | .vint n => intStr n
  | .vfloat s => s
  | .vdate s => s
  | .vnone => "None"

/-- Python `"sep".join(items)`. -/
def joinSep (sep : String) : List String → String
  | [] => ""
  | [s] => s
  | s :: rest => s ++ sep ++ joinSep sep rest

/-- Python `s.endswith(suffix)`. -/
def strEndsWith (s sfx : String) : Bool := sfx.toList.isSuffixOf s.toList

/-- Python `int(str)`: optional surrounding whitespace, optional sign, one or
more digits (the numeric texts this code feeds in never use `_` separators). -/
def pyIntParse (s : String) : Option Int :=
  let cs := pyStripL s.toList
  let core : List Char → Option Nat := fun ds =>
    if ds ≠ [] ∧ ds.all Char.isDigit then
      some (ds.foldl (fun a c => a * 10 + (c.toNat - 48)) 0)
    else none
  match cs with
  | '-' :: rest => (core rest).map (fun n => -(n : Int))
  | '+' :: rest => (core rest).map (fun n => (n : Int))
  | _ => (core cs).map (fun n => (n : Int))

/-- Python `int(value)` coercion attempted by the id-field check: succeeds on
ints and floats, parses strings, fails otherwise. -/
def pyIntCoerce : PyVal → Option Int
  | .vint n => some n
  | .vfloat _ => some 0
  | .vstr s => pyIntParse s
  | _ => none

/-- Code-point lexicographic order on strings (what Python string `<=` is). -/
def charListLe : List Char → List Char → Bool
  | [], _ => true
  | _ :: _, [] => false
  | a :: as, b :: bs => if a = b then charListLe as bs else decide (a.toNat < b.toNat)

def pyStrLe (a b : String) : Bool := charListLe a.toList b.toList

/-- Insertion sort on strings, modelling Python `sorted` (code-point order). -/
def insertSorted (x : String) : List String → List String
  | [] => [x]
  | y :: ys => if pyStrLe x y then x :: y :: ys else y :: insertSorted x ys

def pySorted : List String → List String
  | [] => []
  | x :: xs => insertSorted x (pySorted xs)

/-! ## Errors (`errors_utils.SearchValidationError` and the other raised
exception kinds reaching `parse_query` callers) -/

structure SearchErr where
  message : String
  errorType : String := "invalid_query"
  fieldName : Option String := none
  operation : Option String := none
  userMessage : Option String := none
  deriving DecidableEq, Repr

/-- The exceptions `parse_query` can let escape to its caller. -/
inductive PyErr where
  | validation (e : SearchErr)
  | runtimeError (msg : String)
  | valueError (msg : String)
  deriving DecidableEq, Repr

instance {ε α : Type} [DecidableEq ε] [DecidableEq α] : DecidableEq (Except ε α) := fun a b =>
  match a, b with
  | .ok x, .ok y => if h : x = y then .isTrue (by rw [h]) else .isFalse (by simp [h])
  | .error x, .error y => if h : x = y then .isTrue (by rw [h]) else .isFalse (by simp [h])
  | .ok _, .error _ => .isFalse (by simp)
  | .error _, .ok _ => .isFalse (by simp)

/-! ## `Field` resolution (`Field.to_sql` and its validators) -/

/-- `base_field[-5:] == "_name"` / `base_field[:-5]` (lines 112-114):
a single, non-iterated strip of a trailing `_name`. -/
def stripName (s : String) : String :=
  if ("_name".toList).isSuffixOf s.toList then
    String.mk (s.toList.take (s.toList.length - 5))
  else s

def orderingOps : List String := [">", "<", ">=", "<="]

def comparisonOps : List String := ["=", "!=", ">", "<", ">=", "<="]

/-- Operators that trigger the numeric cast of a JSON field (source tuple
`("=", "!=", ">", "<", ">=", "<=", ":")`). -/
def castOps : List String := ["=", "!=", ">", "<", ">=", "<=", ":"]

def opIn (op : Option String) (l : List String) : Bool :=
  match op with
  | some o => o ∈ l
  | none => false

def typeName : PyVal → String
  | .vstr _ => "str"
  | .vint _ => "int"
  | .vfloat _ => "float"
  | .vdate _ => "datetime"
  | .vnone => "NoneType"

/-- `Field._validate_metadata_operation`. -/
def validateMetadataOperation (op : String) (value : PyVal) (fieldName : String) :
    Except SearchErr Unit :=
  if op = "" then .ok ()
  else if op ∈ (["<", ">", "<=", ">="] : List String) ∧ value.isStr then
    .error
      { message := "String comparison with operator '" ++ op ++
          "' is not supported for metadata field '" ++ fieldName ++ "'"
        errorType := "invalid_operation"
        fieldName := some fieldName
        operation := some op
        userMessage := some ("Cannot use '" ++ op ++ "' to compare text values in field '" ++
          fieldName ++ "'. Use '=' for exact match, ':' for contains, or '=~' for regex patterns.") }
  else .ok ()

/-- `Field._validate_operation_compatibility` (called with the `_name`-stripped
base segment). -/
def validateOperationCompatibility (fieldName : String) (op : Option String) (value : PyVal)
    (availableMetadataFields stringFields idFields : List String) :
    Except SearchErr Unit :=
  match op, value with
  | none, _ => .ok ()
  | some _, .vnone => .ok ()
  | some o, v =>
    if o = "" then .ok ()
    else
      let isMetadataField : Bool :=
        decide ((availableMetadataFields ≠ [] ∧ fieldName ∈ availableMetadataFields) ∨
          fieldName = "metadata")
      do
        if fieldName ∈ stringFields ∧ ¬ isMetadataField then
          if o ∈ orderingOps ∧ v.isNumeric then
            throw
              { message := "Cannot use numeric comparison operator '" ++ o ++
                  "' with string field '" ++ fieldName ++ "'"
                errorType := "invalid_operation"
                fieldName := some fieldName
                operation := some o
                userMessage := some ("The field '" ++ fieldName ++
                  "' contains text values and cannot be compared using '" ++ o ++
                  "'. Use '=' for exact match, ':' for contains, or '=~' for pattern matching.") }
          if o ∈ orderingOps ∧ v.isStr then
            throw
              { message := "String comparison operator '" ++ o ++
                  "' is not supported for field '" ++ fieldName ++ "'"
                errorType := "invalid_operation"
                fieldName := some fieldName
                operation := some o
                userMessage := some ("Cannot compare text values in '" ++ fieldName ++
                  "' using '" ++ o ++
                  "'. Use '=' for exact match, ':' for contains, or '=~' for pattern matching.") }
        if fieldName ∈ idFields ∨ strEndsWith fieldName "_id" then
          if ¬ v.isInt ∧ o ∈ comparisonOps then
            match pyIntCoerce v with
            | some _ => pure ()
            | none =>
              throw
                { message := "Field '" ++ fieldName ++ "' expects integer values, got '" ++
                    pyStr v ++ "' (" ++ typeName v ++ ")"
                  errorType := "invalid_operation"
                  fieldName := some fieldName
                  operation := some o
                  userMessage := some ("The field '" ++ fieldName ++
                    "' expects numeric ID values. Please provide an integer value instead of '" ++
                    pyStr v ++ "'.") }
        if isMetadataField then
          validateMetadataOperation o v fieldName
        else
          pure ()

end Gclql

namespace Gclql

/-! ## Date parsing (`parse_date_string`)

Modelled on CPython `strptime` for the five formats tried by the source
(greedy digit runs with the regex ranges; no claim depends on date-parsing
edge cases, only on whether a parameter is stored as a datetime or kept as
the original string). -/

def digitsVal (ds : List Char) : Nat := ds.foldl (fun a c => a * 10 + (c.toNat - 48)) 0

def pad2 (n : Nat) : String := if n < 10 then "0" ++ natStr n else natStr n

/-- Strip the quote characters `parse_date_string` removes
(`date_str.strip("\"'")`). -/
def stripQuoteChars (s : String) : String :=
  let isQ : Char → Bool := fun c => c = '"' ∨ c = '\''
  String.mk (((s.toList.dropWhile isQ).reverse.dropWhile isQ).reverse)

/-- Read a digit run of length between 1 and `maxLen` whose value is within
`lo..hi`; returns the value and the rest. -/
def readDigitField (maxLen lo hi : Nat) (cs : List Char) : Option (Nat × List Char) :=
  let ds := cs.takeWhile Char.isDigit
  if ds.length = 0 ∨ maxLen < ds.length then none
  else
    let v := digitsVal ds
    if lo ≤ v ∧ v ≤ hi then some (v, cs.drop ds.length) else none

def readSep (c : Char) (cs : List Char) : Option (List Char) :=
  match cs with
  | c' :: rest => if c' = c then some rest else none
  | [] => none

/-- Parse one of the five accepted datetime layouts; returns the canonical
rendering used for the stored `datetime` value. -/
def pyParseDateStr (s : String) : Option String := do
  let cs := (stripQuoteChars s).toList
  let ds := cs.takeWhile Char.isDigit
  if ds.length ≠ 4 then none else
  let y := digitsVal ds
  let cs ← readSep '-' (cs.drop 4)
  let (mo, cs) ← readDigitField 2 1 12 cs
  let cs ← readSep '-' cs
  let (d, cs) ← readDigitField 2 1 31 cs
  let dateStr := natStr y ++ "-" ++ pad2 mo ++ "-" ++ pad2 d
  match cs with
  | [] => some (dateStr ++ " 00:00:00")
  | sep :: cs =>
    if sep ≠ ' ' ∧ sep ≠ 'T' then none else do
    let (h, cs) ← readDigitField 2 0 23 cs
    let cs ← readSep ':' cs
    let (mi, cs) ← readDigitField 2 0 59 cs
    match cs with
    | [] => some (dateStr ++ " " ++ pad2 h ++ ":" ++ pad2 mi ++ ":00")
    | c :: cs =>
      if c ≠ ':' then none else do
      let (sec, cs) ← readDigitField 2 0 61 cs
      if cs ≠ [] then none
      else some (dateStr ++ " " ++ pad2 h ++ ":" ++ pad2 mi ++ ":" ++ pad2 sec)

/-! ## Field resolution (`Field.to_sql`) -/

/-- JSON access expression shared by the auto-detected and explicit metadata
branches (both build it the same way). -/
def jsonFieldAccess (metadataColumn : String) : List String → String
  | [] => metadataColumn
  | [p] => metadataColumn ++ "->>'" ++ p ++ "'"
  | ps =>
    metadataColumn ++ "->" ++
      joinSep "->" (ps.dropLast.map (fun p => "'" ++ p ++ "'")) ++
      "->>'" ++ ps.getLastD "" ++ "'"

/-- The numeric cast applied to a JSON text value when compared with a number
(`value is not None and isinstance(value, int | float) and op in castOps`). -/
def needsNumericCast (value : PyVal) (op : Option String) : Bool :=
  value.isNumeric ∧ opIn op castOps

/-- The `invalid_field` error raised when a field resolves nowhere: names the
full dotted path and lists at most 10 known fields (sorted) as suggestions. -/
def invalidFieldError (parts : List String) (schemaMapping : List (String × String))
    (availableMetadataFields : List String) : SearchErr :=
  let availableFields := schemaMapping.map Prod.fst ++ availableMetadataFields
  let fieldPath := joinSep "." parts
  { message := "Field '" ++ fieldPath ++
      "' does not exist in the database schema or metadata"
    errorType := "invalid_field"
    fieldName := some fieldPath
    userMessage := some ("The field '" ++ fieldPath ++
      "' is not available for searching. Available fields include: " ++
      joinSep ", " ((pySorted availableFields).take 10) ++
      (if 10 < availableFields.length then "..." else "")) }

/-- `Field.to_sql`.  The `[]` case is unreachable from the grammar (a `field`
has at least one segment); it is mapped to an internal error. -/
def fieldToSql (parts : List String) (schemaMapping : List (String × String))
    (value : PyVal) (op : Option String)
    (availableMetadataFields stringFields idFields entityFields : List String) :
    Except SearchErr String :=
  match parts with
  | [] => .error { message := "empty field" }
  | p0 :: _ =>
    let baseField := stripName p0
    let sqlColumn := List.lookup baseField schemaMapping
    match validateOperationCompatibility baseField op value
        availableMetadataFields stringFields idFields with
    | .error e => .error e
    | .ok () =>
      -- `if not sql_column:` — Python falsiness: missing key or empty string
      if sqlColumn = none ∨ sqlColumn = some "" then
        if baseField ∈ entityFields then
          .ok ("d." ++ baseField ++ "_id")
        else if availableMetadataFields ≠ [] ∧ baseField ∈ availableMetadataFields then
          -- auto-detected metadata: the JSON path uses the *unstripped* parts
          let metadataColumn := (List.lookup "metadata" schemaMapping).getD "d.metadata"
          let jsonField := jsonFieldAccess metadataColumn parts
          if needsNumericCast value op then .ok ("(" ++ jsonField ++ ")::numeric")
          else .ok jsonField
        else .error (invalidFieldError parts schemaMapping availableMetadataFields)
      else
        let sqlCol := sqlColumn.getD ""
        if baseField = "metadata" ∧ 1 < parts.length then
          let jsonField := jsonFieldAccess sqlCol parts.tail
          if needsNumericCast value op then .ok ("(" ++ jsonField ++ ")::numeric")
          else .ok jsonField
        else .ok sqlCol

/-! ## SQL translator (`SqlTranslator`) -/

structure TState where
  schemaMapping : List (String × String)
  globalSearchFields : List String
  availableMetadataFields : List String
  stringFields : List String
  idFields : List String
  entityFields : List String
  params : List PyVal
  paramIndex : Nat
  deriving DecidableEq, Repr

/-- `SqlTranslator.reset`: optional arguments keep the previous value when
absent (`if x is not None: self.x = x`); params and index always clear. -/
def resetTranslator (st : TState) (schemaMapping : List (String × String))
    (globalSearchFields availableMetadataFields stringFields idFields entityFields :
      Option (List String)) : TState :=
  { schemaMapping := schemaMapping
    globalSearchFields := globalSearchFields.getD st.globalSearchFields
    availableMetadataFields := availableMetadataFields.getD st.availableMetadataFields
    stringFields := stringFields.getD st.stringFields
    idFields := idFields.getD st.idFields
    entityFields := entityFields.getD st.entityFields
    params := []
    paramIndex := 0 }

/-- `SqlTranslator._translate_field_exists`. -/
def translateFieldExists (st : TState) (parts : List String) (sqlField : String) :
    String × TState :=
  let p0 := parts.headD ""
  if (p0 = "metadata" ∧ 1 < parts.length) ∨ p0 ∈ st.availableMetadataFields then
    let jsonPath := if p0 ∈ st.availableMetadataFields then parts else parts.tail
    match jsonPath with
    | [k] =>
      let idx := st.paramIndex + 1
      ("d.metadata ? $" ++ natStr idx,
        { st with paramIndex := idx, params := st.params ++ [.vstr k] })
    | ks =>
      let idx := st.paramIndex + 1
      ("jsonb_path_exists(d.metadata, $" ++ natStr idx ++ ")",
        { st with paramIndex := idx, params := st.params ++ [.vstr ("$." ++ joinSep "." ks)] })
  else (sqlField ++ " IS NOT NULL", st)

/-- `SqlTranslator._translate_field_not_exists`. -/
def translateFieldNotExists (st : TState) (parts : List String) (sqlField : String) :
    String × TState :=
  let p0 := parts.headD ""
  if (p0 = "metadata" ∧ 1 < parts.length) ∨ p0 ∈ st.availableMetadataFields then
    let jsonPath := if p0 ∈ st.availableMetadataFields then parts else parts.tail
    match jsonPath with
    | [k] =>
      let idx := st.paramIndex + 1
      ("NOT (d.metadata ? $" ++ natStr idx ++ ")",
        { st with paramIndex := idx, params := st.params ++ [.vstr k] })
    | ks =>
      let idx := st.paramIndex + 1
      ("NOT jsonb_path_exists(d.metadata, $" ++ natStr idx ++ ")",
        { st with paramIndex := idx, params := st.params ++ [.vstr ("$." ++ joinSep "." ks)] })
  else (sqlField ++ " IS NULL", st)

def lastEditedGuardOps : List String := [">", "<", ">=", "<=", "!="]

/-- The `(sql_op, param_value)` selection ladder of `_translate_comparison`. -/
def sqlOpAndParamFor (op : String) (value : PyVal) (isLast : Bool) : String × PyVal :=
  if op = ":" then ("ILIKE", .vstr ("%" ++ pyStr value ++ "%"))
  else if op = "=" then
    if value.isStr ∧ ¬ isLast then ("ILIKE", value) else ("=", value)
  else if op = "=~" then ("~*", value)
  else if op = "!~" then ("!~*", value)
  else if op = "!:" then ("NOT_ILIKE", .vstr ("%" ++ pyStr value ++ "%"))
  else if op = "#" then ("SIMILARITY", value)
  else if op = "!=" then
    if value.isStr ∧ ¬ isLast then ("NOT_ILIKE", value) else ("!=", value)
  else (op, value)

/-- The last-edited-at date-string parsing applied to the parameter value. -/
def dateAdjust (op : String) (isLast : Bool) (pv : PyVal) : PyVal :=
  if isLast ∧ pv.isStr ∧ op ∈ comparisonOps then
    match pv with
    | .vstr s =>
      match pyParseDateStr s with
      | some d => PyVal.vdate d
      | none => PyVal.vstr s
    | v => v
  else pv

/-- `SqlTranslator._translate_comparison`. -/
def translateComparison (st : TState) (parts : List String) (op : String) (value : PyVal) :
    Except SearchErr (String × TState) := do
  let sqlField ← fieldToSql parts st.schemaMapping value (some op)
    st.availableMetadataFields st.stringFields st.idFields st.entityFields
  if op = ":" ∧ value = .vstr "*" then
    return translateFieldExists st parts sqlField
  if op = "!:" ∧ value = .vstr "*" then
    return translateFieldNotExists st parts sqlField
  let isLastEditedAt : Bool :=
    decide (parts.headD "" = "last_edited_at") || strEndsWith sqlField "last_edited_at"
  let idx := st.paramIndex + 1
  let placeholder := "$" ++ natStr idx
  -- "last_edited_at:" with empty value: rolls the index increment back and
  -- emits no placeholder and no parameter
  if op = ":" ∧ isLastEditedAt ∧ (value = .vstr "" ∨ value = .vnone) then
    return (sqlField ++ " IS NOT NULL", st)
  let sqlOpAndParam := sqlOpAndParamFor op value isLastEditedAt
  let sqlOp := sqlOpAndParam.1
  let paramValue := dateAdjust op isLastEditedAt sqlOpAndParam.2
  let st' : TState := { st with paramIndex := idx, params := st.params ++ [paramValue] }
  if isLastEditedAt ∧ op ∈ lastEditedGuardOps then
    if sqlOp = "NOT_ILIKE" then
      return ("(" ++ sqlField ++ " IS NOT NULL AND NOT (" ++ sqlField ++ " ILIKE " ++
        placeholder ++ "))", st')
    else if sqlOp = "SIMILARITY" then
      return ("(" ++ sqlField ++ " IS NOT NULL AND similarity(" ++ placeholder ++ ", " ++
        sqlField ++ ") > 0.7)", st')
    else
      return ("(" ++ sqlField ++ " IS NOT NULL AND " ++ sqlField ++ " " ++ sqlOp ++ " " ++
        placeholder ++ ")", st')
  else
    if sqlOp = "NOT_ILIKE" then
      return ("NOT (" ++ sqlField ++ " ILIKE " ++ placeholder ++ ")", st')
    else if sqlOp = "SIMILARITY" then
      return ("similarity(" ++ placeholder ++ ", " ++ sqlField ++ ") > 0.7", st')
    else
      return (sqlField ++ " " ++ sqlOp ++ " " ++ placeholder, st')

/-! ## AST (`Comparison` / `GlobalSearch` / `And` / `Or` / `Not`) -/

inductive Ast where
  | comparison (parts : List String) (op : String) (value : PyVal)
  | globalSearch (value : String) (isQuoted : Bool)
  | notNode (t : Ast)
  | andNode (l r : Ast)
  | orNode (l r : Ast)
  deriving DecidableEq, Repr

/-- `SqlTranslator._build_search_condition`. -/
def buildSearchCondition (fieldName placeholder : String) (isQuoted : Bool) : String :=
  if containsSub (lowerStr fieldName) "uuid" then
    if isQuoted then fieldName ++ "::text ~* " ++ placeholder
    else fieldName ++ "::text ILIKE '%' || " ++ placeholder ++ " || '%'"
  else
    if isQuoted then fieldName ++ " ~* " ++ placeholder
    else fieldName ++ " ILIKE '%' || " ++ placeholder ++ " || '%'"

/-- `SqlTranslator._build_global_search_clause`. -/
def buildGlobalSearchClause (searchTerm : String) (isQuoted : Bool)
    (fieldList : List String) (paramOffset : Nat) : String × String :=
  if pyStrip searchTerm = "" then ("TRUE", "")
  else
    let placeholder := "$" ++ natStr (paramOffset + 1)
    let conditions := fieldList.map (fun f => buildSearchCondition f placeholder isQuoted)
    if conditions = [] then ("TRUE", "")
    else ("(" ++ joinSep " OR " conditions ++ ")", placeholder)

/-- `SqlTranslator._translate_global_search`. -/
def translateGlobalSearch (st : TState) (value : String) (isQuoted : Bool) : String × TState :=
  if pyStrip value ∈ (["*", ""] : List String) then ("TRUE", st)
  else
    let searchValue := pyStrip value
    let wp := buildGlobalSearchClause searchValue isQuoted st.globalSearchFields st.paramIndex
    if wp.2 ≠ "" then
      (wp.1, { st with paramIndex := st.paramIndex + 1, params := st.params ++ [.vstr searchValue] })
    else (wp.1, st)

/-- `SqlTranslator.translate`. -/
def translate (st : TState) : Ast → Except SearchErr (String × TState)
  | .comparison parts op value => translateComparison st parts op value
  | .globalSearch v q => .ok (translateGlobalSearch st v q)
  | .notNode t => do
    let (s, st') ← translate st t
    .ok ("NOT (" ++ s ++ ")", st')
  | .andNode l r => do
    let (sl, st1) ← translate st l
    let (sr, st2) ← translate st1 r
    .ok ("(" ++ sl ++ " AND " ++ sr ++ ")", st2)
  | .orNode l r => do
    let (sl, st1) ← translate st l
    let (sr, st2) ← translate st1 r
    .ok ("(" ++ sl ++ " OR " ++ sr ++ ")", st2)

end Gclql

namespace Gclql

/-! ## Lexer (the Lark terminals of `QUERY_LANGUAGE_GRAMMAR`)

Terminal selection models Lark's standard lexer: the priority-2 keywords
`AND`/`OR`/`NOT` win at their position, otherwise the longest match wins.
The `OP` terminal is an ordered regex alternation
`"=" | "!=" | ">" | "<" | ">=" | "<=" | ":" | "!:" | "=~" | "!~" | "#"`,
and Python `re` alternation takes the first branch that matches, not the
longest (so `>=` lexes as `>` and then `=`). -/

inductive Tok where
  | tAnd | tOr | tNot
  | ident (s : String)
  | quoted (s : String)
  | uuidTok (s : String)
  | numTok (s : String)
  | star
  | opTok (s : String)
  | lpar | rpar | dot
  deriving DecidableEq, Repr

def isIdentFirst (c : Char) : Bool := c.isAlpha ∨ c = '_'

def isIdentCh (c : Char) : Bool := c.isAlphanum ∨ c = '_' ∨ c = '-'

def isHex (c : Char) : Bool :=
  c.isDigit ∨ ('a' ≤ c ∧ c ≤ 'f') ∨ ('A' ≤ c ∧ c ≤ 'F')

def isQuoteCh (c : Char) : Bool := c = '"' ∨ c = '\''

def isWordCh (c : Char) : Bool := c.isAlphanum ∨ c = '_'

/-- Require exactly `n` hex digits, returning the rest. -/
def hexRun (n : Nat) (cs : List Char) : Option (List Char) :=
  let h := cs.take n
  if h.length = n ∧ h.all isHex then some (cs.drop n) else none

/-- Match the UUID layout 8-4-4-4-12 at the front; returns the rest. -/
def uuidRest (cs : List Char) : Option (List Char) := do
  let r ← hexRun 8 cs
  let r ← readSep '-' r
  let r ← hexRun 4 r
  let r ← readSep '-' r
  let r ← hexRun 4 r
  let r ← readSep '-' r
  let r ← hexRun 4 r
  let r ← readSep '-' r
  hexRun 12 r

/-- `is_uuid_format`: strip, then the anchored UUID pattern. -/
def isUuidFormat (s : String) : Bool :=
  match uuidRest (pyStripL s.toList) with
  | some [] => true
  | _ => false

/-- Exponent part `("e"|"E") ["+"|"-"] INT`; returns chars consumed. -/
def expPart (cs : List Char) : Nat :=
  match cs with
  | e :: rest =>
    if e = 'e' ∨ e = 'E' then
      match rest with
      | s :: rest' =>
        if s = '+' ∨ s = '-' then
          let ds := rest'.takeWhile Char.isDigit
          if ds = [] then 0 else 2 + ds.length
        else
          let ds := rest.takeWhile Char.isDigit
          if ds = [] then 0 else 1 + ds.length
      | [] => 0
    else 0
  | [] => 0

/-- Length matched by `common.SIGNED_NUMBER` at the front (0 if none). -/
def numLen (cs : List Char) : Nat :=
  let signLen := match cs with
    | c :: _ => if c = '+' ∨ c = '-' then 1 else 0
    | [] => 0
  let body := cs.drop signLen
  let d1 := body.takeWhile Char.isDigit
  let afterD1 := body.drop d1.length
  let coreLen :=
    match afterD1 with
    | '.' :: r2 =>
      if d1 = [] ∧ r2.takeWhile Char.isDigit = [] then 0
      else
        let d2 := r2.takeWhile Char.isDigit
        d1.length + 1 + d2.length + expPart (r2.drop d2.length)
    | _ =>
      if d1 = [] then 0
      else
        let e := expPart afterD1
        if e = 0 then d1.length else d1.length + e
  if coreLen = 0 then 0 else signLen + coreLen

/-- First-match length of the `OP` alternation (Python `re` order). -/
def opLen (cs : List Char) : Option String :=
  (["=", "!=", ">", "<", ">=", "<=", ":", "!:", "=~", "!~", "#"] : List String).find?
    (fun o => o.toList.isPrefixOf cs)

/-- Longest-match tie-break between two terminal candidates (earlier
candidate wins ties, as Lark orders terminals). -/
def pickCand : Option (Tok × Nat) → Option (Tok × Nat) → Option (Tok × Nat)
  | some (t, n), some (t', n') => if n' > n then some (t', n') else some (t, n)
  | some x, none => some x
  | none, some y => some y
  | none, none => none

/-- One token at the front of non-space input, Lark terminal selection. -/
def lexToken (cs : List Char) : Option (Tok × List Char) :=
  -- priority-2 keywords first
  if ("AND".toList).isPrefixOf cs then some (.tAnd, cs.drop 3)
  else if ("OR".toList).isPrefixOf cs then some (.tOr, cs.drop 2)
  else if ("NOT".toList).isPrefixOf cs then some (.tNot, cs.drop 3)
  else
    -- candidates with their match lengths, in tie-break order
    let quotedCand : Option (Tok × Nat) :=
      match cs with
      | c :: rest =>
        if isQuoteCh c then
          let content := rest.takeWhile (fun x => x ≠ c)
          match rest.drop content.length with
          | _ :: _ => some (.quoted (String.mk content), content.length + 2)
          | [] => none
        else none
      | [] => none
    let uuidCand : Option (Tok × Nat) :=
      match uuidRest cs with
      | some _ => some (.uuidTok (String.mk (cs.take 36)), 36)
      | none => none
    let numCand : Option (Tok × Nat) :=
      let n := numLen cs
      if n = 0 then none else some (.numTok (String.mk (cs.take n)), n)
    let identCand : Option (Tok × Nat) :=
      match cs with
      | c :: rest =>
        if isIdentFirst c then
          let run := c :: rest.takeWhile isIdentCh
          some (.ident (String.mk run), run.length)
        else none
      | [] => none
    let simpleCand : Option (Tok × Nat) :=
      match cs with
      | '*' :: _ => some (.star, 1)
      | '(' :: _ => some (.lpar, 1)
      | ')' :: _ => some (.rpar, 1)
      | '.' :: _ => some (.dot, 1)
      | _ => none
    let opCand : Option (Tok × Nat) :=
      match opLen cs with
      | some o => some (.opTok o, o.length)
      | none => none
    match pickCand (pickCand (pickCand (pickCand (pickCand quotedCand uuidCand) numCand)
        identCand) simpleCand) opCand with
    | some (t, n) => some (t, cs.drop n)
    | none => none

def lexLoop : Nat → List Char → Option (List Tok)
  | 0, _ => none
  | fuel + 1, cs =>
    let cs' := cs.dropWhile isPyWs
    if cs' = [] then some []
    else
      match lexToken cs' with
      | some (t, rest) => (lexLoop fuel rest).map (t :: ·)
      | none => none

def lexAll (s : String) : Option (List Tok) := lexLoop (s.toList.length + 1) s.toList

/-! ## Parser (LALR acceptance of the grammar, fused with `AstTransformer`)

A fueled recursive-descent parser for the unambiguous grammar
`expr := term (OR term)*`, `term := factor (AND factor)*`,
`factor := NOT? item`, `item := "(" expr ")" | comparison | global_search`,
with the LALR(1) decisions: an `IDENTIFIER` followed by `.` or an `OP`
starts a `comparison`, otherwise it reduces to a `global_search`; after an
`OP` a value token is consumed iff one is present.  The transformer actions
are applied inline (`simple_value` number conversion can fail, which Lark
wraps into a `VisitError`, i.e. a parse failure). -/

def tokValue : Tok → Option PyVal
  | .quoted s => some (.vstr s)
  | .numTok s =>
    if containsSub s "." then some (.vfloat s) else (pyIntParse s).map PyVal.vint
  | .ident s => some (.vstr s)
  | .uuidTok s => some (.vstr s)
  | .star => some (.vstr "*")
  | _ => none

def isValueTok : Tok → Bool
  | .quoted _ | .numTok _ | .ident _ | .uuidTok _ | .star => true
  | _ => false

/-- The `global_search` transformer action: value text and quotedness
(`str()` of the converted number for number tokens). -/
def tokGlobal : Tok → Option (String × Bool)
  | .quoted s => some (s, true)
  | .numTok s =>
    if containsSub s "." then some (s, false)
    else (pyIntParse s).map (fun n => (intStr n, false))
  | .ident s => some (s, false)
  | .uuidTok s => some (s, false)
  | .star => some ("*", false)
  | _ => none

/-- Remaining field segments: `("." IDENTIFIER)*`. -/
def pFieldRest : Nat → List String → List Tok → Option (List String × List Tok)
  | 0, _, _ => none
  | fuel + 1, acc, toks =>
    match toks with
    | .dot :: .ident s :: rest => pFieldRest fuel (acc ++ [s]) rest
    | .dot :: _ => none
    | _ => some (acc, toks)

inductive PMode where
  | expr | term | factor | item
  | exprLoop (acc : Ast)
  | termLoop (acc : Ast)

def parseM : Nat → PMode → List Tok → Option (Ast × List Tok)
  | 0, _, _ => none
  | fuel + 1, m, toks =>
    match m with
    | .expr => do
      let (t, r) ← parseM fuel .term toks
      parseM fuel (.exprLoop t) r
    | .exprLoop acc =>
      match toks with
      | .tOr :: rest => do
        let (t, r) ← parseM fuel .term rest
        parseM fuel (.exprLoop (.orNode acc t)) r
      | _ => some (acc, toks)
    | .term => do
      let (t, r) ← parseM fuel .factor toks
      parseM fuel (.termLoop t) r
    | .termLoop acc =>
      match toks with
      | .tAnd :: rest => do
        let (t, r) ← parseM fuel .factor rest
        parseM fuel (.termLoop (.andNode acc t)) r
      | _ => some (acc, toks)
    | .factor =>
      match toks with
      | .tNot :: rest => do
        let (t, r) ← parseM fuel .item rest
        some (.notNode t, r)
      | _ => parseM fuel .item toks
    | .item =>
      match toks with
      | .lpar :: rest => do
        let (e, r) ← parseM fuel .expr rest
        match r with
        | .rpar :: r' => some (e, r')
        | _ => none
      | .ident s :: rest =>
        match rest with
        | .dot :: _ | .opTok _ :: _ => do
          -- comparison: field OP value?
          let (parts, r1) ← pFieldRest (rest.length + 1) [s] rest
          match r1 with
          | .opTok o :: r2 =>
            match r2 with
            | v :: r3 =>
              if isValueTok v then do
                let pv ← tokValue v
                some (.comparison parts o pv, r3)
              else some (.comparison parts o .vnone, r2)
            | [] => some (.comparison parts o .vnone, r2)
          | _ => none
        | _ => some (.globalSearch s false, rest)
      | t :: rest =>
        match tokGlobal t with
        | some (v, q) => some (.globalSearch v q, rest)
        | none => none
      | [] => none

/-- Parse and transform a whole query string; `none` is any `LarkError`
(lexer error, syntax error, or transformer `VisitError`). -/
def parseGclql (s : String) : Option Ast :=
  match lexAll s with
  | none => none
  | some toks =>
    match parseM (8 * (toks.length + 1)) .expr toks with
    | some (a, []) => some a
    | _ => none

end Gclql

namespace Gclql

/-! ## Recovery-layer text scanners

Models of the `re` operations used by `_build_hybrid_search_clause` and
`_build_fuzzy_search_clause`, with Python `re` leftmost-match semantics
(all patterns are such that greedy matching needs no backtracking). -/

/-- Match `\s+AND\s+` (IGNORECASE) at the front; returns the rest. -/
def andSplitAt (cs : List Char) : Option (List Char) :=
  let ws1 := cs.takeWhile isPyWs
  if ws1 = [] then none
  else
    match cs.drop ws1.length with
    | a :: n :: d :: rest =>
      if a.toLower = 'a' ∧ n.toLower = 'n' ∧ d.toLower = 'd' then
        let ws2 := rest.takeWhile isPyWs
        if ws2 = [] then none else some (rest.drop ws2.length)
      else none
    | _ => none

def splitAndAux : Nat → List Char → List Char → List String
  | 0, acc, cs => [String.mk (acc.reverse ++ cs)]
  | fuel + 1, acc, cs =>
    match cs with
    | [] => [String.mk acc.reverse]
    | c :: rest =>
      match andSplitAt cs with
      | some rest' => String.mk acc.reverse :: splitAndAux fuel [] rest'
      | none => splitAndAux fuel (c :: acc) rest

/-- `re.split(r"\s+AND\s+", s, flags=re.IGNORECASE)`. -/
def splitAnd (s : String) : List String := splitAndAux (s.toList.length + 1) [] s.toList

def findQuotedAux : Nat → List Char → List String
  | 0, _ => []
  | fuel + 1, cs =>
    match cs with
    | [] => []
    | c :: rest =>
      if isQuoteCh c then
        let content := rest.takeWhile (fun x => ¬ isQuoteCh x)
        match rest.drop content.length with
        | _ :: rest2 =>
          if content ≠ [] then String.mk content :: findQuotedAux fuel rest2
          else findQuotedAux fuel rest
        | [] => findQuotedAux fuel rest
      else findQuotedAux fuel rest

/-- `re.findall(r'["\']([^"\']+)["\']', s)` (either quote opens or closes). -/
def findQuoted (s : String) : List String := findQuotedAux (s.toList.length + 1) s.toList

/-- Keyword `AND`/`OR`/`NOT` (IGNORECASE) at the front with a word boundary
after it; the boundary before is the caller's job. -/
def kwAt (cs : List Char) : Option Nat :=
  let boundaryAfter : List Char → Bool := fun r =>
    match r with
    | [] => true
    | c :: _ => ¬ isWordCh c
  match cs with
  | c1 :: c2 :: c3 :: rest =>
    if c1.toLower = 'a' ∧ c2.toLower = 'n' ∧ c3.toLower = 'd' ∧ boundaryAfter rest then some 3
    else if c1.toLower = 'n' ∧ c2.toLower = 'o' ∧ c3.toLower = 't' ∧ boundaryAfter rest then some 3
    else if c1.toLower = 'o' ∧ c2.toLower = 'r' ∧ boundaryAfter (c3 :: rest) then some 2
    else none
  | [c1, c2] => if c1.toLower = 'o' ∧ c2.toLower = 'r' then some 2 else none
  | _ => none

def removeKwAux : Nat → Bool → List Char → List Char
  | 0, _, cs => cs
  | fuel + 1, prevWord, cs =>
    match cs with
    | [] => []
    | c :: rest =>
      if ¬ prevWord then
        match kwAt cs with
        | some k => ' ' :: removeKwAux fuel false (cs.drop k)
        | none => c :: removeKwAux fuel (isWordCh c) rest
      else c :: removeKwAux fuel (isWordCh c) rest

/-- `re.sub(r"\b(AND|OR|NOT)\b", " ", s, flags=re.IGNORECASE)`. -/
def removeKeywords (s : String) : String :=
  String.mk (removeKwAux (s.toList.length + 1) false s.toList)

/-- Match `\w+\s*=\s*["\'][^"\']*["\']` at the front (which starts with a word
character); returns the rest after the match. -/
def fieldEqAt (cs : List Char) : Option (List Char) :=
  let w := cs.takeWhile isWordCh
  if w = [] then none
  else
    let r1 := cs.drop w.length
    let ws1 := r1.takeWhile isPyWs
    match r1.drop ws1.length with
    | '=' :: r2 =>
      let ws2 := r2.takeWhile isPyWs
      match r2.drop ws2.length with
      | q :: r3 =>
        if isQuoteCh q then
          let content := r3.takeWhile (fun c => ¬ isQuoteCh c)
          match r3.drop content.length with
          | _ :: r4 => some r4
          | [] => none
        else none
      | [] => none
    | _ => none

def removeFieldEqAux : Nat → List Char → List Char
  | 0, cs => cs
  | fuel + 1, cs =>
    match cs with
    | [] => []
    | c :: rest =>
      if isWordCh c then
        match fieldEqAt cs with
        | some r => ' ' :: removeFieldEqAux fuel r
        | none =>
          -- no match can start inside this word run either
          let w := cs.takeWhile isWordCh
          w ++ removeFieldEqAux fuel (cs.drop w.length)
      else c :: removeFieldEqAux fuel rest

/-- `re.sub(r'\w+\s*=\s*["\'][^"\']*["\']', " ", s)`. -/
def removeFieldEq (s : String) : String :=
  String.mk (removeFieldEqAux (s.toList.length + 1) s.toList)

def collapseWsAux : Nat → List Char → List Char
  | 0, cs => cs
  | fuel + 1, cs =>
    match cs with
    | [] => []
    | c :: rest =>
      if isPyWs c then ' ' :: collapseWsAux fuel (rest.dropWhile isPyWs)
      else c :: collapseWsAux fuel rest

/-- `re.sub(r"\s+", " ", s)`. -/
def collapseWs (s : String) : String :=
  String.mk (collapseWsAux (s.toList.length + 1) s.toList)

/-! ## `sql_utils.generate_unique_table_alias` -/

def sqlReservedKeywords : List String :=
  ["for", "from", "where", "select", "update", "delete", "insert", "join", "on", "as",
   "in", "or", "and", "not", "if", "order", "by", "group", "having", "union", "all",
   "exists", "case", "when", "then", "else", "end", "distinct", "limit", "offset",
   "into", "values", "set", "create", "drop", "alter", "table", "index", "view",
   "trigger", "procedure", "function", "schema", "database", "constraint", "primary",
   "foreign", "key", "unique", "null", "default", "check", "references"]

/-- The `while` loop searching a free numeric suffix; at most `|used|`
collisions are possible, so `|used| + 1` fuel always finds the answer. -/
def findFreeSuffix : Nat → String → List String → Nat → String
  | 0, orig, _, counter => orig ++ natStr counter
  | fuel + 1, orig, used, counter =>
    if (orig ++ natStr counter) ∈ used then findFreeSuffix fuel orig used (counter + 1)
    else orig ++ natStr counter

def generateUniqueTableAlias (entityKey : String) (usedAliases : List String) : String :=
  let ek := entityKey.toList
  let base0 := if 3 < ek.length then String.mk (ek.take 3) else entityKey
  let base1 :=
    if lowerStr base0 ∈ sqlReservedKeywords ∧ 3 < ek.length then String.mk (ek.take 4)
    else base0
  let base2 :=
    if lowerStr base1 ∈ sqlReservedKeywords then String.mk (ek.take 1) ++ "_t"
    else base1
  let base3 :=
    if base2 ∈ usedAliases ∧ 3 < ek.length ∧ base2.toList.length < 4 then
      String.mk (ek.take 4)
    else base2
  if base3 ∈ usedAliases then findFreeSuffix (usedAliases.length + 1) base3 usedAliases 1
  else base3

/-! ## `QueryParser` (setup snapshot and `parse_query`) -/

/-- One entry of `navigation_analysis["navigation_tables"]`. -/
structure NavTable where
  tableName : String
  primaryKey : String
  nameColumn : String
  deriving DecidableEq, Repr

/-- The setup-time snapshot a `QueryParser` instance carries when
`parse_query` runs (schema mapping, metadata keys, classifications, and the
navigation analysis; `from_and_joins`, `entity_aliases`, the select fields
and the search-field list are pure functions of it, recomputed here instead
of cached on the instance). -/
structure QPState where
  schemaMapping : List (String × String)
  availableMetadataFields : List String
  stringFields : List String
  idFields : List String
  entityFields : List String
  navigationTables : List (String × NavTable)
  mainTablePrimaryKey : String
  mainTableColumns : List String
  mainTable : String
  deriving DecidableEq, Repr

/-- `_build_dynamic_joins`: join lines and the `entity_key → alias` map. -/
def joinLines : List (String × NavTable) → List String → List String × List (String × String)
  | [], _ => ([], [])
  | (key, info) :: rest, used =>
    let al := generateUniqueTableAlias key used
    let line := "            LEFT JOIN " ++ info.tableName ++ " " ++ al ++ " ON d." ++
      key ++ "_id = " ++ al ++ "." ++ info.primaryKey
    let (ls, als) := joinLines rest (used ++ [al])
    (line :: ls, (key, al) :: als)

def fromAndJoins (st : QPState) : String :=
  joinSep "\n" (("FROM " ++ st.mainTable ++ " d") :: (joinLines st.navigationTables ["d"]).1)

def entityAliases (st : QPState) : List (String × String) :=
  (joinLines st.navigationTables ["d"]).2

/-- `_build_dynamic_select_fields`. -/
def dynamicSelectFields (st : QPState) : String :=
  let mains := st.mainTableColumns.map (fun c => "d." ++ c)
  let navs := st.navigationTables.map (fun p =>
    "                    " ++ (List.lookup p.1 (entityAliases st)).getD "" ++ "." ++
      p.2.nameColumn ++ " as " ++ p.1 ++ "_name")
  joinSep ",\n" (mains ++ navs)

/-- `_build_dynamic_global_search_fields`. -/
def dynamicGlobalSearchFields (st : QPState) (searchTerm : String) : List String :=
  ["d.name", "jsonb_values_to_text(d.metadata)"] ++
    (if searchTerm ≠ "" ∧ isUuidFormat searchTerm then ["d.uuid"] else []) ++
    st.navigationTables.map (fun p =>
      (List.lookup p.1 (entityAliases st)).getD "" ++ "." ++ p.2.nameColumn)

/-- `_extract_search_term_from_ast`. -/
def extractSearchTerm : Ast → String
  | .globalSearch v _ => pyStrip v
  | .andNode l r | .orNode l r =>
    let lt := extractSearchTerm l
    if lt ≠ "" then lt else extractSearchTerm r
  | .notNode t => extractSearchTerm t
  | .comparison _ _ _ => ""

def emptyTranslator : TState :=
  { schemaMapping := [], globalSearchFields := [], availableMetadataFields := [],
    stringFields := [], idFields := [], entityFields := [], params := [], paramIndex := 0 }

/-- `self.translator.reset(...)` with every argument supplied: by
`reset`'s definition the result does not depend on the previous translator
state, so the shared instance is modelled by resetting a canonical one. -/
def freshTranslator (st : QPState) (globalSearchFields : List String) : TState :=
  resetTranslator emptyTranslator st.schemaMapping (some globalSearchFields)
    (some st.availableMetadataFields) (some st.stringFields) (some st.idFields)
    (some st.entityFields)

/-- `_build_fuzzy_search_clause`. -/
def buildFuzzySearchClause (st : QPState) (queryString : String) : String × List PyVal :=
  let quotedStrings := findQuoted queryString
  let tq : String × Bool :=
    match quotedStrings with
    | q :: _ => (pyStrip q, true)
    | [] =>
      let cleaned := pyStrip (collapseWs (removeFieldEq (removeKeywords queryString)))
      (if cleaned ≠ "" then cleaned else pyStrip queryString, false)
  let fieldList := dynamicGlobalSearchFields st tq.1
  let wp := buildGlobalSearchClause tq.1 tq.2 fieldList 0
  (wp.1, if pyStrip tq.1 ≠ "" then [PyVal.vstr tq.1] else [])

/-- The second loop of `_build_hybrid_search_clause`: translate the parts
that parse, collect the rest as fuzzy search terms; a translation error
(`SearchValidationError`) aborts the whole hybrid attempt. -/
def hybridLoop (tst : TState) : List String → Except SearchErr (List String × List String × TState)
  | [] => .ok ([], [], tst)
  | part :: rest =>
    let p := pyStrip part
    if p = "" then hybridLoop tst rest
    else
      match parseGclql p with
      | some ast =>
        match translate tst ast with
        | .ok (clause, tst') =>
          match hybridLoop tst' rest with
          | .ok (vc, ft, tstF) => .ok (clause :: vc, ft, tstF)
          | .error e => .error e
        | .error e => .error e
      | none =>
        match hybridLoop tst rest with
        | .ok (vc, ft, tstF) => .ok (vc, p :: ft, tstF)
        | .error e => .error e

/-- `_build_hybrid_search_clause`. -/
def buildHybridSearchClause (st : QPState) (queryString : String) :
    Except SearchErr (String × List PyVal) :=
  let parts := splitAnd queryString
  let allSearchTerms := parts.filterMap (fun part =>
    let p := pyStrip part
    if p = "" then none
    else
      match parseGclql p with
      | some _ => none
      | none => some p)
  let primarySearchTerm :=
    if allSearchTerms ≠ [] then
      match findQuoted (joinSep " " allSearchTerms) with
      | q :: _ => pyStrip q
      | [] => pyStrip (collapseWs (removeFieldEq (removeKeywords (allSearchTerms.headD ""))))
    else ""
  let globalSearchFields := dynamicGlobalSearchFields st primarySearchTerm
  let tst0 := freshTranslator st globalSearchFields
  match hybridLoop tst0 parts with
  | .error e => .error e
  | .ok (validClauses, fuzzyTerms, tstF) =>
    let allParams := tstF.params
    let paramIndex := allParams.length
    let cp : List String × List PyVal :=
      if fuzzyTerms ≠ [] then
        let fuzzyPhrase := pyStrip (joinSep " " fuzzyTerms)
        let isQuoted := findQuoted queryString ≠ []
        let wp := buildGlobalSearchClause fuzzyPhrase isQuoted globalSearchFields paramIndex
        (if wp.1 ≠ "TRUE" then validClauses ++ [wp.1] else validClauses,
          allParams ++ [PyVal.vstr fuzzyPhrase])
      else (validClauses, allParams)
    if cp.1 ≠ [] then .ok ("(" ++ joinSep " AND " cp.1 ++ ")", cp.2)
    else .ok ("TRUE", cp.2)

def strStartsWith (s pre : String) : Bool := pre.toList.isPrefixOf s.toList

def splitOnChAux : Nat → Char → List Char → List Char → List String
  | 0, _, acc, cs => [String.mk (acc.reverse ++ cs)]
  | fuel + 1, sep, acc, cs =>
    match cs with
    | [] => [String.mk acc.reverse]
    | c :: rest =>
      if c = sep then String.mk acc.reverse :: splitOnChAux fuel sep [] rest
      else splitOnChAux fuel sep (c :: acc) rest

/-- Python `s.split(".")`. -/
def splitOnDot (s : String) : List String := splitOnChAux (s.toList.length + 1) '.' [] s.toList

/-- `_build_order_by_clause`. -/
def buildOrderByClause (st : QPState) (sortBy sortOrder : String) : Except PyErr String :=
  if ¬ lowerStr sortOrder ∈ (["asc", "desc"] : List String) then
    .error (.valueError "sort_order must be 'asc' or 'desc'")
  else if strStartsWith sortBy "metadata." then
    -- sort_by.split(".", 1) always has two pieces here
    let metadataPath := String.mk (sortBy.toList.drop 9)
    let pathParts := splitOnDot metadataPath
    let jsonField :=
      match pathParts with
      | [p] => "d.metadata->>'" ++ p ++ "'"
      | ps =>
        "d.metadata->" ++ joinSep "->" (ps.dropLast.map (fun p => "'" ++ p ++ "'")) ++
          "->>'" ++ ps.getLastD "" ++ "'"
    .ok ("ORDER BY " ++ jsonField ++ " " ++ upperStr sortOrder ++ ", d." ++
      st.mainTablePrimaryKey ++ " " ++ upperStr sortOrder)
  else
    match fieldToSql [sortBy] st.schemaMapping .vnone none st.availableMetadataFields
        st.stringFields st.idFields st.entityFields with
    | .error e => .error (.validation e)
    | .ok sqlField =>
      .ok ("ORDER BY " ++ sqlField ++ " " ++ upperStr sortOrder ++ ", d." ++
        st.mainTablePrimaryKey ++ " " ++ upperStr sortOrder)

/-- `QueryParser.parse_query` → `(count_query, select_query, params)`. -/
def parseQuery (st : QPState) (queryString sortBy sortOrder : String) :
    Except PyErr (String × String × List PyVal) :=
  if st.schemaMapping = [] then .error (.runtimeError "QueryParser not set up.")
  else if pyStrip queryString = "" then
    match buildOrderByClause st sortBy sortOrder with
    | .error e => .error e
    | .ok orderBy =>
      let selectQuery := "\n                SELECT " ++ dynamicSelectFields st ++
        "\n                " ++ fromAndJoins st ++ "\n                " ++ orderBy ++
        "\n            "
      .ok ("SELECT COUNT(*) FROM " ++ st.mainTable, selectQuery, [])
  else
    match parseGclql queryString with
    | some ast =>
      let searchTerm := extractSearchTerm ast
      let tst0 := freshTranslator st (dynamicGlobalSearchFields st searchTerm)
      match translate tst0 ast with
      | .error e => .error (.validation e)
      | .ok (whereClause, tstF) =>
        match buildOrderByClause st sortBy sortOrder with
        | .error e => .error e
        | .ok orderBy =>
          let selectQuery := "\n            SELECT " ++ dynamicSelectFields st ++
            "\n            " ++ fromAndJoins st ++ "\n            WHERE " ++ whereClause ++
            "\n            " ++ orderBy ++ "\n        "
          .ok ("SELECT COUNT(*) " ++ fromAndJoins st ++ " WHERE " ++ whereClause,
            selectQuery, tstF.params)
    | none =>
      -- LarkError: hybrid recovery, and on *any* exception from it the
      -- fuzzy whole-string fallback
      let wp : String × List PyVal :=
        match buildHybridSearchClause st queryString with
        | .ok r => r
        | .error _ => buildFuzzySearchClause st queryString
      match buildOrderByClause st sortBy sortOrder with
      | .error e => .error e
      | .ok orderBy =>
        let selectQuery := "\n                SELECT " ++ dynamicSelectFields st ++
          "\n                " ++ fromAndJoins st ++ "\n                WHERE " ++ wp.1 ++
          "\n                " ++ orderBy ++ "\n            "
        .ok ("SELECT COUNT(*) " ++ fromAndJoins st ++ " WHERE " ++ wp.1, selectQuery, wp.2)

end Gclql

namespace Gclql

/-! ## Helper accessors for stating error properties -/

def errInfo {α : Type} : Except SearchErr α → Option (String × Option String × Option String)
  | .error e => some (e.errorType, e.fieldName, e.operation)
  | .ok _ => none

/-! ## Concrete states used by witnesses and counterexamples -/

/-- A representative setup snapshot (one plain string column, a metadata key,
the timestamp column; no navigation tables). -/
def exState : QPState :=
  { schemaMapping := [("uuid", "d.uuid"), ("name", "d.name"), ("status", "d.status"),
      ("metadata", "d.metadata"), ("last_edited_at", "d.last_edited_at")]
    availableMetadataFields := ["tag"]
    stringFields := ["name", "status"]
    idFields := []
    entityFields := []
    navigationTables := []
    mainTablePrimaryKey := "id"
    mainTableColumns := ["id", "uuid", "name", "status", "metadata", "last_edited_at"]
    mainTable := "documents" }

/-- A `QueryParser` whose `setup` never ran: empty schema mapping. -/
def unsetState : QPState :=
  { schemaMapping := []
    availableMetadataFields := []
    stringFields := []
    idFields := []
    entityFields := []
    navigationTables := []
    mainTablePrimaryKey := "id"
    mainTableColumns := []
    mainTable := "documents" }

end Gclql

namespace Gclql

/-! ## Small reduction lemmas for the `Except` monad -/

theorem exc_throw_bind {ε α β : Type} (e : ε) (f : α → Except ε β) :
    (throw e : Except ε α) >>= f = throw e := rfl

theorem exc_pure_bind {ε α β : Type} (a : α) (f : α → Except ε β) :
    (pure a : Except ε α) >>= f = f a := rfl

theorem exc_error_bind {ε α β : Type} (e : ε) (f : α → Except ε β) :
    (Except.error e : Except ε α) >>= f = Except.error e := rfl

theorem exc_ok_bind {ε α β : Type} (a : α) (f : α → Except ε β) :
    (Except.ok a : Except ε α) >>= f = f a := rfl

/-- The translator state `parse_query` uses on `exState` for a non-UUID term. -/
def exTState : TState := freshTranslator exState (dynamicGlobalSearchFields exState "")

/-- C9: translating an AST through a freshly reset translator gives a result
that does not depend on anything the shared translator instance held before
the reset (same SQL string, same parameter list), for any fixed Schema
Context (all `reset` arguments supplied). -/
theorem translate_deterministic_after_reset (prev1 prev2 : TState)
    (schema : List (String × String)) (gsf mdf sf idf ef : List String) (a : Ast) :
    translate (resetTranslator prev1 schema (some gsf) (some mdf) (some sf) (some idf) (some ef)) a =
    translate (resetTranslator prev2 schema (some gsf) (some mdf) (some sf) (some idf) (some ef)) a := rfl

/-- C10: calling `parse_query` while the schema mapping is still empty (setup
has not populated it) raises `RuntimeError("QueryParser not set up.")` for
every query string and sort arguments, producing no SQL. -/
theorem parseQuery_unset_raises (st : QPState) (q sortBy sortOrder : String)
    (h : st.schemaMapping = []) :
    parseQuery st q sortBy sortOrder = .error (.runtimeError "QueryParser not set up.") := by
  simp [parseQuery, h]

theorem parseQuery_unset_raises_witness :
    parseQuery unsetState "status=active" "name" "asc" =
      .error (.runtimeError "QueryParser not set up.") :=
  parseQuery_unset_raises unsetState "status=active" "name" "asc" rfl

/-- C7: a comparison on a string-classified, non-metadata field with an
ordering operator and a non-`None` value (numeric or string) raises
`invalid_operation` carrying the (stripped) field name and the operator. -/
theorem stringField_ordering_op_raises (st : TState) (p0 : String) (rest : List String)
    (op : String) (v : PyVal)
    (hstr : stripName p0 ∈ st.stringFields)
    (hmeta : ¬ ((st.availableMetadataFields ≠ [] ∧ stripName p0 ∈ st.availableMetadataFields) ∨
      stripName p0 = "metadata"))
    (hop : op ∈ orderingOps)
    (hv : v.isNumeric = true ∨ v.isStr = true) :
    errInfo (translateComparison st (p0 :: rest) op v) =
      some ("invalid_operation", some (stripName p0), some op) := by
  have hop' : op ≠ "" := by
    intro h
    subst h
    simp [orderingOps] at hop
  cases v with
  | vstr s =>
    simp [translateComparison, fieldToSql, validateOperationCompatibility, errInfo,
      hstr, hmeta, hop, hop', PyVal.isNumeric, PyVal.isStr, exc_throw_bind, exc_pure_bind,
      exc_error_bind, exc_ok_bind]
  | vint n =>
    simp [translateComparison, fieldToSql, validateOperationCompatibility, errInfo,
      hstr, hmeta, hop, hop', PyVal.isNumeric, PyVal.isStr, exc_throw_bind, exc_pure_bind,
      exc_error_bind, exc_ok_bind]
  | vfloat s =>
    simp [translateComparison, fieldToSql, validateOperationCompatibility, errInfo,
      hstr, hmeta, hop, hop', PyVal.isNumeric, PyVal.isStr, exc_throw_bind, exc_pure_bind,
      exc_error_bind, exc_ok_bind]
  | vdate s => simp [PyVal.isNumeric, PyVal.isStr] at hv
  | vnone => simp [PyVal.isNumeric, PyVal.isStr] at hv

theorem stringField_ordering_op_raises_witness :
    stripName "status" ∈ exTState.stringFields ∧
    errInfo (translateComparison exTState ["status"] ">" (.vstr "abc")) =
      some ("invalid_operation", some "status", some ">") := by
  constructor
  · decide
  · have h := stringField_ordering_op_raises exTState "status" [] ">" (.vstr "abc")
      (by decide) (by decide) (by decide) (Or.inr rfl)
    have hs : stripName "status" = "status" := by decide
    rw [hs] at h
    exact h

end Gclql

namespace Gclql

/-- C5: for an auto-detected single-level metadata key `k` (present in the
metadata field set, not a schema column, not a navigation entity, and not
itself carrying a `_name` suffix that resolution would strip), `k:*`
translates to the key-membership predicate and `k!:*` to exactly its
negation, both appending the key name as the same single parameter. -/
theorem metadata_exists_duality (st : TState) (k : String)
    (hmd : k ∈ st.availableMetadataFields)
    (hnotcol : List.lookup k st.schemaMapping = none)
    (hnotent : k ∉ st.entityFields)
    (hname : ¬ ("_name".toList <:+ k.toList)) :
    translateComparison st [k] ":" (.vstr "*") =
      .ok ("d.metadata ? $" ++ natStr (st.paramIndex + 1),
        { st with paramIndex := st.paramIndex + 1, params := st.params ++ [.vstr k] }) ∧
    translateComparison st [k] "!:" (.vstr "*") =
      .ok ("NOT (d.metadata ? $" ++ natStr (st.paramIndex + 1) ++ ")",
        { st with paramIndex := st.paramIndex + 1, params := st.params ++ [.vstr k] }) := by
  have hne : st.availableMetadataFields ≠ [] := List.ne_nil_of_mem hmd
  have hb : ("_name".toList).isSuffixOf k.toList = false := by
    rw [Bool.eq_false_iff]
    intro hsf
    exact hname (List.isSuffixOf_iff_suffix.mp hsf)
  have hstrip : stripName k = k := by
    have hcond : ¬ (("_name".toList).isSuffixOf k.toList = true) := by
      rw [hb]
      exact Bool.false_ne_true
    unfold stripName
    rw [if_neg hcond]
  constructor
  · simp [translateComparison, fieldToSql, validateOperationCompatibility,
      validateMetadataOperation, hstrip, hnotcol, hnotent, hmd, hne, needsNumericCast,
      PyVal.isNumeric, PyVal.isStr, PyVal.isInt, opIn, castOps, comparisonOps,
      exc_throw_bind, exc_pure_bind, exc_error_bind, exc_ok_bind,
      translateFieldExists, jsonFieldAccess]
  · simp [translateComparison, fieldToSql, validateOperationCompatibility,
      validateMetadataOperation, hstrip, hnotcol, hnotent, hmd, hne, needsNumericCast,
      PyVal.isNumeric, PyVal.isStr, PyVal.isInt, opIn, castOps, comparisonOps,
      exc_throw_bind, exc_pure_bind, exc_error_bind, exc_ok_bind,
      translateFieldNotExists, jsonFieldAccess]

theorem metadata_exists_duality_witness :
    "tag" ∈ exTState.availableMetadataFields ∧
    translateComparison exTState ["tag"] ":" (.vstr "*") =
      .ok ("d.metadata ? $1",
        { exTState with paramIndex := 1, params := [.vstr "tag"] }) ∧
    translateComparison exTState ["tag"] "!:" (.vstr "*") =
      .ok ("NOT (d.metadata ? $1)",
        { exTState with paramIndex := 1, params := [.vstr "tag"] }) := by
  have h := metadata_exists_duality exTState "tag" (by decide) (by decide) (by decide)
    (by decide)
  exact ⟨by decide, h.1, h.2⟩


end Gclql

namespace Gclql

/-- C2 counterexample: on the designated last-edited field, operator `=` with
a (non-date-shaped) string value yields a bare `F = $1` with no
`IS NOT NULL` guard anywhere in the fragment. -/
theorem lastEdited_eq_has_no_guard :
    translateComparison exTState ["last_edited_at"] "=" (.vstr "yesterday") =
      .ok ("d.last_edited_at = $1",
        { exTState with paramIndex := 1, params := [.vstr "yesterday"] }) ∧
    containsSub "d.last_edited_at = $1" "IS NOT NULL" = false := by decide

/-- C2 amended: the `F IS NOT NULL AND (...)` guard around a last-edited-at
comparison is applied exactly for the operators `> < >= <= !=` (not for
`= : !: =~ !~ #`); for the five guarded operators the emitted fragment is
the guarded comparison. -/
theorem lastEdited_guard_for_ordering_ops (st : TState) (rest : List String)
    (op : String) (value : PyVal) (sqlField : String)
    (hop : op ∈ lastEditedGuardOps)
    (hf : fieldToSql ("last_edited_at" :: rest) st.schemaMapping value (some op)
      st.availableMetadataFields st.stringFields st.idFields st.entityFields = .ok sqlField) :
    ∃ st' : TState, translateComparison st ("last_edited_at" :: rest) op value =
      .ok ("(" ++ sqlField ++ " IS NOT NULL AND " ++ sqlField ++ " " ++ op ++ " $" ++
        natStr (st.paramIndex + 1) ++ ")", st') := by
  simp only [lastEditedGuardOps, List.mem_cons, List.not_mem_nil, or_false] at hop
  have hsp : ∀ y : String, " " ++ ("$" ++ y) = " $" ++ y := by
    intro y
    rw [← String.append_assoc]
    rfl
  rcases hop with rfl | rfl | rfl | rfl | rfl <;>
  · simp [translateComparison, hf, exc_ok_bind, exc_error_bind, lastEditedGuardOps,
      sqlOpAndParamFor]
    simp only [String.append_assoc]
    rw [hsp]


theorem lastEdited_guard_for_ordering_ops_witness :
    ∃ st' : TState, translateComparison exTState ["last_edited_at"] ">" (.vstr "2025-07-20") =
      .ok ("(d.last_edited_at IS NOT NULL AND d.last_edited_at > $1)", st') := by
  obtain ⟨st', h⟩ := lastEdited_guard_for_ordering_ops exTState [] ">" (.vstr "2025-07-20")
    "d.last_edited_at" (by decide) (by decide)
  have hs : "(" ++ "d.last_edited_at" ++ " IS NOT NULL AND " ++ "d.last_edited_at" ++ " " ++
      ">" ++ " $" ++ natStr (exTState.paramIndex + 1) ++ ")" =
      "(d.last_edited_at IS NOT NULL AND d.last_edited_at > $1)" := by decide
  rw [hs] at h
  exact ⟨st', h⟩

end Gclql
namespace Gclql

/-- Single `_name` strip is the identity on names without the suffix. -/
theorem stripName_eq_self (x : String) (hx : ¬ ("_name".toList <:+ x.toList)) :
    stripName x = x := by
  have hcond : ¬ (("_name".toList).isSuffixOf x.toList = true) := by
    intro hsf
    exact hx (List.isSuffixOf_iff_suffix.mp hsf)
  unfold stripName
  rw [if_neg hcond]

theorem stripName_append (x : String) :
    stripName (x ++ "_name") = x := by
  have hsfx : ("_name".toList) <:+ (x ++ "_name").toList := by
    rw [show (x ++ "_name").toList = x.toList ++ "_name".toList from String.data_append x "_name"]
    exact List.suffix_append x.toList "_name".toList
  have hcond : ("_name".toList).isSuffixOf (x ++ "_name").toList = true :=
    List.isSuffixOf_iff_suffix.mpr hsfx
  unfold stripName
  rw [if_pos hcond]
  rw [show (x ++ "_name").toList = x.toList ++ "_name".toList from String.data_append x "_name"]
  have hlen : (x.toList ++ "_name".toList).length - 5 = x.toList.length := by
    simp
  rw [hlen, List.take_left]
  cases x
  rfl

/-- C8 counterexample: with `X = "a_name"`, the field `X_name`
(`"a_name_name"`) resolves through base key `"a_name"` while the field `X`
resolves through base key `"a"`: the two bases differ, so "X_name and X
resolve to the same base lookup key" fails when `X` itself ends in `_name`. -/
theorem nameSuffix_not_same_base_counterexample :
    fieldToSql ["a_name_name"] [("a", "d.a"), ("a_name", "d.b")] .vnone none [] [] [] [] =
      .ok "d.b" ∧
    fieldToSql ["a_name"] [("a", "d.a"), ("a_name", "d.b")] .vnone none [] [] [] [] =
      .ok "d.a" ∧
    stripName "a_name_name" ≠ stripName "a_name" := by decide

/-- C8 amended: resolution strips one trailing `_name` from the first segment
before the schema lookup, so `X_name` and `X` resolve to the same base key
whenever `X` does not itself end in `_name`: both resolve to `X`'s column. -/
theorem nameSuffix_same_base (x v : String) (schema : List (String × String))
    (mdf sf idf ef : List String)
    (hx : ¬ ("_name".toList <:+ x.toList))
    (hlook : List.lookup x schema = some v) (hv : v ≠ "") :
    stripName (x ++ "_name") = stripName x ∧
    fieldToSql [x ++ "_name"] schema .vnone none mdf sf idf ef = .ok v ∧
    fieldToSql [x] schema .vnone none mdf sf idf ef = .ok v := by
  have h1 : stripName (x ++ "_name") = x := stripName_append x
  have h2 : stripName x = x := stripName_eq_self x hx
  refine ⟨h1.trans h2.symm, ?_, ?_⟩
  · simp [fieldToSql, h1, validateOperationCompatibility, hlook, hv]
  · simp [fieldToSql, h2, validateOperationCompatibility, hlook, hv]

theorem nameSuffix_same_base_witness :
    fieldToSql ["category" ++ "_name"] [("category", "d.category_id")] .vnone none [] [] [] [] =
      .ok "d.category_id" ∧
    fieldToSql ["category"] [("category", "d.category_id")] .vnone none [] [] [] [] =
      .ok "d.category_id" := by
  have h := nameSuffix_same_base "category" "d.category_id" [("category", "d.category_id")]
    [] [] [] [] (by decide) (by decide) (by decide)
  exact ⟨h.2.1, h.2.2⟩

/-- C6 counterexample: a field whose (stripped) base resolves nowhere but ends
in `_id`, compared against a non-integer-coercible value, raises
`invalid_operation` (the id-coercion check fires first), not `invalid_field`. -/
theorem unknown_id_field_invalid_operation :
    List.lookup (stripName "foo_id") exState.schemaMapping = none ∧
    stripName "foo_id" ∉ exState.entityFields ∧
    stripName "foo_id" ∉ exState.availableMetadataFields ∧
    errInfo (fieldToSql ["foo_id"] exState.schemaMapping (.vstr "abc") (some "=")
      exState.availableMetadataFields exState.stringFields exState.idFields
      exState.entityFields) = some ("invalid_operation", some "foo_id", some "=") := by decide

/-- C6 amended: when the stripped base is not a schema key, not a navigation
entity and not a metadata key, and the operator/value validation itself does
not fail first, resolution raises the `invalid_field` error naming the full
dotted path, with at most 10 known fields (sorted) as suggestions and no SQL
produced. -/
theorem unknown_field_invalid_field (p0 : String) (rest : List String)
    (schema : List (String × String)) (value : PyVal) (op : Option String)
    (mdf sf idf ef : List String)
    (hlook : List.lookup (stripName p0) schema = none)
    (hent : stripName p0 ∉ ef)
    (hmdf : stripName p0 ∉ mdf)
    (hval : validateOperationCompatibility (stripName p0) op value mdf sf idf = .ok ()) :
    fieldToSql (p0 :: rest) schema value op mdf sf idf ef =
      .error (invalidFieldError (p0 :: rest) schema mdf) ∧
    (invalidFieldError (p0 :: rest) schema mdf).errorType = "invalid_field" ∧
    (invalidFieldError (p0 :: rest) schema mdf).fieldName = some (joinSep "." (p0 :: rest)) ∧
    ((pySorted (schema.map Prod.fst ++ mdf)).take 10).length ≤ 10 := by
  refine ⟨?_, rfl, rfl, List.length_take_le 10 _⟩
  simp [fieldToSql, hval, hlook, hent, hmdf]

theorem unknown_field_invalid_field_witness :
    fieldToSql ["nonexistent_field"] exState.schemaMapping (.vint 1) (some "=")
      exState.availableMetadataFields exState.stringFields exState.idFields
      exState.entityFields =
      .error (invalidFieldError ["nonexistent_field"] exState.schemaMapping
        exState.availableMetadataFields) ∧
    (invalidFieldError ["nonexistent_field"] exState.schemaMapping
      exState.availableMetadataFields).userMessage =
      some ("The field 'nonexistent_field' is not available for searching. " ++
        "Available fields include: last_edited_at, metadata, name, status, tag, uuid") := by
  have h := unknown_field_invalid_field "nonexistent_field" [] exState.schemaMapping
    (.vint 1) (some "=") exState.availableMetadataFields exState.stringFields
    exState.idFields exState.entityFields (by decide) (by decide) (by decide) (by decide)
  exact ⟨h.1, by decide⟩

end Gclql
namespace Gclql

theorem strDataEq (a b : String) (h : a.data = b.data) : a = b := by
  cases a
  cases b
  cases h
  rfl

/-- A pattern starting with a character absent from the haystack is not a
substring. -/
theorem containsSubL_false_of_not_mem (hay : List Char) (c : Char) (ps : List Char)
    (h : c ∉ hay) : containsSubL hay (c :: ps) = false := by
  induction hay with
  | nil => rfl
  | cons a t ih =>
    have hca : (c == a) = false := by
      rw [beq_eq_false_iff_ne]
      intro hc
      exact h (hc ▸ List.mem_cons_self a t)
    have hmem : c ∉ t := fun hm => h (List.mem_cons_of_mem a hm)
    show (List.isPrefixOf (c :: ps) (a :: t) || containsSubL t (c :: ps)) = false
    rw [List.isPrefixOf, hca, ih hmem]
    rfl

/-- C4: the empty (or all-whitespace) query with sort `("name", "asc")`
returns empty params, a count query and a search query with no WHERE clause,
and an ORDER BY on the name column ascending then the primary key ascending. -/
theorem emptyQuery_identity (st : QPState) (q nameSql : String)
    (hq : pyStrip q = "")
    (hschema : st.schemaMapping ≠ [])
    (hlook : List.lookup "name" st.schemaMapping = some nameSql) (hns : nameSql ≠ "")
    (hW1 : 'W' ∉ (dynamicSelectFields st).toList)
    (hW2 : 'W' ∉ (fromAndJoins st).toList)
    (hW3 : 'W' ∉ nameSql.toList)
    (hW4 : 'W' ∉ st.mainTablePrimaryKey.toList)
    (hW5 : 'W' ∉ st.mainTable.toList) :
    parseQuery st q "name" "asc" =
      .ok ("SELECT COUNT(*) FROM " ++ st.mainTable,
        "\n                SELECT " ++ dynamicSelectFields st ++ "\n                " ++
          fromAndJoins st ++ "\n                " ++
          ("ORDER BY " ++ nameSql ++ " ASC, d." ++ st.mainTablePrimaryKey ++ " ASC") ++
          "\n            ", []) ∧
    containsSub ("SELECT COUNT(*) FROM " ++ st.mainTable) "WHERE" = false ∧
    containsSub ("\n                SELECT " ++ dynamicSelectFields st ++ "\n                " ++
      fromAndJoins st ++ "\n                " ++
      ("ORDER BY " ++ nameSql ++ " ASC, d." ++ st.mainTablePrimaryKey ++ " ASC") ++
      "\n            ") "WHERE" = false := by
  have hsn : stripName "name" = "name" := by decide
  have hob0 : buildOrderByClause st "name" "asc" =
      .ok ("ORDER BY " ++ nameSql ++ " " ++ "ASC" ++ ", d." ++
        st.mainTablePrimaryKey ++ " " ++ "ASC") := by
    simp [buildOrderByClause, fieldToSql, validateOperationCompatibility, hsn,
      strStartsWith, lowerStr, upperStr, hlook, hns]
  have hshape : ("ORDER BY " ++ nameSql ++ " " ++ "ASC" ++ ", d." ++
      st.mainTablePrimaryKey ++ " " ++ "ASC") =
      ("ORDER BY " ++ nameSql ++ " ASC, d." ++ st.mainTablePrimaryKey ++ " ASC") := by
    apply strDataEq
    simp [String.data_append]
  rw [hshape] at hob0
  refine ⟨?_, ?_, ?_⟩
  · simp [parseQuery, hschema, hq, hob0]
  · apply containsSubL_false_of_not_mem
    simp only [String.toList] at hW5
    simp only [String.toList, String.data_append, List.mem_append, not_or]
    simp [hW5]
  · apply containsSubL_false_of_not_mem
    simp only [String.toList] at hW1 hW2 hW3 hW4
    simp only [String.toList, String.data_append, List.mem_append, not_or]
    simp [hW1, hW2, hW3, hW4]

set_option maxRecDepth 4000 in
theorem emptyQuery_identity_witness :
    parseQuery exState "  " "name" "asc" =
      .ok ("SELECT COUNT(*) FROM documents",
        "\n                SELECT d.id,\nd.uuid,\nd.name,\nd.status,\nd.metadata,\nd.last_edited_at\n                FROM documents d\n                ORDER BY d.name ASC, d.id ASC\n            ",
        []) ∧
    containsSub "SELECT COUNT(*) FROM documents" "WHERE" = false ∧
    containsSub "\n                SELECT d.id,\nd.uuid,\nd.name,\nd.status,\nd.metadata,\nd.last_edited_at\n                FROM documents d\n                ORDER BY d.name ASC, d.id ASC\n            " "WHERE" = false := by
  have h := emptyQuery_identity exState "  " "d.name" (by decide) (by decide) (by decide)
    (by decide) (by decide) (by decide) (by decide) (by decide) (by decide)
  have e1 : ("SELECT COUNT(*) FROM " ++ exState.mainTable) =
      "SELECT COUNT(*) FROM documents" := by decide
  have e2 : ("\n                SELECT " ++ dynamicSelectFields exState ++ "\n                " ++
      fromAndJoins exState ++ "\n                " ++
      ("ORDER BY " ++ "d.name" ++ " ASC, d." ++ exState.mainTablePrimaryKey ++ " ASC") ++
      "\n            ") =
      "\n                SELECT d.id,\nd.uuid,\nd.name,\nd.status,\nd.metadata,\nd.last_edited_at\n                FROM documents d\n                ORDER BY d.name ASC, d.id ASC\n            " := by
    decide
  rw [e1, e2] at h
  exact h

end Gclql
namespace Gclql

set_option maxRecDepth 8000 in
/-- C1 counterexample: the whole query fails to parse, the hybrid recovery
translates the parsed segment `badfield=1` and hits `invalid_field` — and
`parse_query` returns successfully anyway, degrading the whole query to the
free-text search predicate instead of raising the error. -/
theorem recovery_swallows_validation_error_cex :
    parseGclql "badfield=1 AND \"oops" = none ∧
    parseGclql "badfield=1" = some (.comparison ["badfield"] "=" (.vint 1)) ∧
    errInfo (buildHybridSearchClause exState "badfield=1 AND \"oops") =
      some ("invalid_field", some "badfield", none) ∧
    parseQuery exState "badfield=1 AND \"oops" "name" "asc" =
      .ok ("SELECT COUNT(*) FROM documents d WHERE (d.name ILIKE '%' || $1 || '%' OR jsonb_values_to_text(d.metadata) ILIKE '%' || $1 || '%')",
        "\n                SELECT d.id,\nd.uuid,\nd.name,\nd.status,\nd.metadata,\nd.last_edited_at\n                FROM documents d\n                WHERE (d.name ILIKE '%' || $1 || '%' OR jsonb_values_to_text(d.metadata) ILIKE '%' || $1 || '%')\n                ORDER BY d.name ASC, d.id ASC\n            ",
        [PyVal.vstr "badfield=1 \"oops"]) := by decide

/-- C1 amended: when the grammar rejects the whole query and the hybrid
recovery aborts with an exception (in particular a field/operator validation
error from a parsed AND-segment), `parse_query` catches it and returns the
whole-string fuzzy free-text clause instead of raising. -/
theorem recovery_swallows_validation_error (st : QPState) (q sortBy sortOrder : String)
    (e : SearchErr) (ob : String)
    (hschema : st.schemaMapping ≠ [])
    (hq : ¬ pyStrip q = "")
    (hparse : parseGclql q = none)
    (hhyb : buildHybridSearchClause st q = .error e)
    (hob : buildOrderByClause st sortBy sortOrder = .ok ob) :
    parseQuery st q sortBy sortOrder =
      .ok ("SELECT COUNT(*) " ++ fromAndJoins st ++ " WHERE " ++ (buildFuzzySearchClause st q).1,
        "\n                SELECT " ++ dynamicSelectFields st ++ "\n                " ++
          fromAndJoins st ++ "\n                WHERE " ++ (buildFuzzySearchClause st q).1 ++
          "\n                " ++ ob ++ "\n            ",
        (buildFuzzySearchClause st q).2) := by
  simp [parseQuery, hschema, hq, hparse, hhyb, hob]

set_option maxRecDepth 8000 in
theorem recovery_swallows_validation_error_witness :
    ∃ e : SearchErr,
      buildHybridSearchClause exState "badfield=1 AND \"oops" = .error e ∧
      parseQuery exState "badfield=1 AND \"oops" "name" "asc" =
        .ok ("SELECT COUNT(*) " ++ fromAndJoins exState ++ " WHERE " ++
            (buildFuzzySearchClause exState "badfield=1 AND \"oops").1,
          "\n                SELECT " ++ dynamicSelectFields exState ++ "\n                " ++
            fromAndJoins exState ++ "\n                WHERE " ++
            (buildFuzzySearchClause exState "badfield=1 AND \"oops").1 ++
            "\n                " ++ "ORDER BY d.name ASC, d.id ASC" ++ "\n            ",
          (buildFuzzySearchClause exState "badfield=1 AND \"oops").2) := by
  have hob : buildOrderByClause exState "name" "asc" =
      .ok "ORDER BY d.name ASC, d.id ASC" := by decide
  have hhyb : buildHybridSearchClause exState "badfield=1 AND \"oops" =
      .error (invalidFieldError ["badfield"] exState.schemaMapping
        exState.availableMetadataFields) := by decide
  exact ⟨invalidFieldError ["badfield"] exState.schemaMapping exState.availableMetadataFields,
    hhyb,
    recovery_swallows_validation_error exState "badfield=1 AND \"oops" "name" "asc"
      (invalidFieldError ["badfield"] exState.schemaMapping exState.availableMetadataFields)
      "ORDER BY d.name ASC, d.id ASC"
      (by decide) (by decide) (by decide) hhyb hob⟩

end Gclql
namespace Gclql

/-! ## Placeholder occurrences in SQL text (for the `$n`/params arity claim)

A small scanner extracting, in order, the numbers of the `$<digits>`
placeholders occurring in a string. -/

inductive PhSt where
  | norm | dollar | num (n : Nat)
  deriving DecidableEq, Repr

def phRun : PhSt → List Char → List Nat × PhSt
  | st, [] => ([], st)
  | .norm, c :: cs => if c = '$' then phRun .dollar cs else phRun .norm cs
  | .dollar, c :: cs =>
    if c.isDigit then phRun (.num (c.toNat - 48)) cs
    else if c = '$' then phRun .dollar cs
    else phRun .norm cs
  | .num n, c :: cs =>
    if c.isDigit then phRun (.num (n * 10 + (c.toNat - 48))) cs
    else if c = '$' then (n :: (phRun .dollar cs).1, (phRun .dollar cs).2)
    else (n :: (phRun .norm cs).1, (phRun .norm cs).2)

def phFin : PhSt → List Nat
  | .num n => [n]
  | _ => []

def phOccL (cs : List Char) : List Nat :=
  (phRun .norm cs).1 ++ phFin (phRun .norm cs).2

/-- The ordered list of `$n` placeholder numbers occurring in a string. -/
def phOcc (s : String) : List Nat := phOccL s.toList

theorem phRun_append (a : List Char) : ∀ (b : List Char) (st : PhSt),
    phRun st (a ++ b) =
      ((phRun st a).1 ++ (phRun (phRun st a).2 b).1, (phRun (phRun st a).2 b).2) := by
  induction a with
  | nil => intro b st; simp [phRun]
  | cons c a ih =>
    intro b st
    cases st with
    | norm =>
      by_cases hc : c = '$' <;> simp [phRun, hc, ih]
    | dollar =>
      by_cases hd : c.isDigit
      · simp [phRun, hd, ih]
      · by_cases hc : c = '$' <;> simp [phRun, hd, hc, ih]
    | num n =>
      by_cases hd : c.isDigit
      · simp [phRun, hd, ih]
      · by_cases hc : c = '$' <;> simp [phRun, hd, hc, ih]

theorem phRun_no_dollar (cs : List Char) (h : '$' ∉ cs) : phRun .norm cs = ([], .norm) := by
  induction cs with
  | nil => rfl
  | cons c t ih =>
    have hc : c ≠ '$' := fun hc => h (hc ▸ List.mem_cons_self c t)
    have ht : '$' ∉ t := fun hm => h (List.mem_cons_of_mem c hm)
    show (if c = '$' then phRun .dollar t else phRun .norm t) = ([], .norm)
    rw [if_neg hc]
    exact ih ht

theorem phOccL_no_dollar (cs : List Char) (h : '$' ∉ cs) : phOccL cs = [] := by
  simp [phOccL, phRun_no_dollar cs h, phFin]

/-- Splitting `phOccL` at a boundary whose right side starts with a
non-digit, non-dollar character. -/
theorem phOccL_append_boundary (p : List Char) (c : Char) (cs : List Char)
    (hdig : c.isDigit = false) (hdol : c ≠ '$') :
    phOccL (p ++ (c :: cs)) = phOccL p ++ phOccL (c :: cs) := by
  have hstep : ∀ st : PhSt, phRun st (c :: cs) =
      (phFin st ++ (phRun .norm cs).1, (phRun .norm cs).2) := by
    intro st
    cases st <;> simp [phRun, phFin, hdig, hdol]
  simp only [phOccL]
  rw [phRun_append p (c :: cs) PhSt.norm, hstep]
  simp [hstep, phFin, List.append_assoc]

/-- Splitting off a prefix that contains no dollar sign. -/
theorem phOccL_append_norm (p q : List Char) (hp : '$' ∉ p) :
    phOccL (p ++ q) = phOccL q := by
  rw [phOccL, phRun_append, phRun_no_dollar p hp]
  simp [phOccL]

end Gclql
namespace Gclql

/-! ## Digit runs and the placeholder template -/

theorem digitChar_isDigit (d : Nat) (h : d < 10) : (Nat.digitChar d).isDigit = true := by
  interval_cases d <;> decide

theorem digitChar_val (d : Nat) (h : d < 10) : (Nat.digitChar d).toNat - 48 = d := by
  interval_cases d <;> decide

theorem natDigitsAux_spec (fuel : Nat) : ∀ n, n < fuel →
    natDigitsAux n fuel ≠ [] ∧ (∀ c ∈ natDigitsAux n fuel, c.isDigit = true) ∧
    ∀ m, (natDigitsAux n fuel).foldl (fun a c => a * 10 + (c.toNat - 48)) m =
      m * 10 ^ (natDigitsAux n fuel).length + n := by
  induction fuel with
  | zero => intro n hn; omega
  | succ f ih =>
    intro n hn
    by_cases h10 : n < 10
    · refine ⟨by simp [natDigitsAux, h10], ?_, ?_⟩
      · intro c hc
        simp [natDigitsAux, h10] at hc
        exact hc ▸ digitChar_isDigit n h10
      · intro m
        simp [natDigitsAux, h10, digitChar_val n h10]
    · have hrec : n / 10 < f := by
        have h1 : n / 10 < n := Nat.div_lt_self (by omega) (by omega)
        omega
      obtain ⟨hne, hdig, hfold⟩ := ih (n / 10) hrec
      have hmod : n % 10 < 10 := Nat.mod_lt n (by omega)
      refine ⟨?_, ?_, ?_⟩
      · simp [natDigitsAux, h10]
      · intro c hc
        simp [natDigitsAux, h10] at hc
        rcases hc with hc | hc
        · exact hdig c hc
        · exact hc ▸ digitChar_isDigit (n % 10) hmod
      · intro m
        simp only [natDigitsAux, h10, if_false, List.foldl_append, List.foldl_cons,
          List.foldl_nil, List.length_append, List.length_cons, List.length_nil]
        rw [hfold m, digitChar_val (n % 10) hmod]
        have : 10 ^ ((natDigitsAux (n / 10) f).length + (0 + 1)) =
            10 ^ (natDigitsAux (n / 10) f).length * 10 := by
          ring
        rw [this]
        have hdm : n / 10 * 10 + n % 10 = n := by omega
        ring_nf
        omega

theorem natDigits_ne_nil (n : Nat) : natDigits n ≠ [] :=
  (natDigitsAux_spec (n + 1) n (Nat.lt_succ_self n)).1

theorem natDigits_all_digit (n : Nat) : ∀ c ∈ natDigits n, c.isDigit = true :=
  (natDigitsAux_spec (n + 1) n (Nat.lt_succ_self n)).2.1

theorem natDigits_foldl (n : Nat) :
    (natDigits n).foldl (fun a c => a * 10 + (c.toNat - 48)) 0 = n := by
  have h := (natDigitsAux_spec (n + 1) n (Nat.lt_succ_self n)).2.2 0
  simpa [natDigits] using h

theorem phRun_num_digits (ds : List Char) : ∀ m, (∀ c ∈ ds, c.isDigit = true) →
    phRun (.num m) ds = ([], .num (ds.foldl (fun a c => a * 10 + (c.toNat - 48)) m)) := by
  induction ds with
  | nil => intro m _; rfl
  | cons c t ih =>
    intro m h
    have hc : c.isDigit = true := h c (List.mem_cons_self c t)
    have ht : ∀ x ∈ t, x.isDigit = true := fun x hx => h x (List.mem_cons_of_mem c hx)
    show (if c.isDigit then phRun (.num (m * 10 + (c.toNat - 48))) t
      else if c = '$' then _ else _) = _
    rw [if_pos hc]
    simp [ih (m * 10 + (c.toNat - 48)) ht]

theorem phRun_dollar_natDigits (k : Nat) :
    phRun .dollar (natDigits k) = ([], .num k) := by
  rcases hds : natDigits k with _ | ⟨c, t⟩
  · exact absurd hds (natDigits_ne_nil k)
  · have hc : c.isDigit = true := by
      have := natDigits_all_digit k
      rw [hds] at this
      exact this c (List.mem_cons_self c t)
    have ht : ∀ x ∈ t, x.isDigit = true := by
      have := natDigits_all_digit k
      rw [hds] at this
      exact fun x hx => this x (List.mem_cons_of_mem c hx)
    show (if c.isDigit then phRun (.num (c.toNat - 48)) t
      else if c = '$' then _ else _) = _
    rw [if_pos hc, phRun_num_digits t (c.toNat - 48) ht]
    have := natDigits_foldl k
    rw [hds] at this
    simp only [List.foldl_cons] at this
    simp only [Nat.zero_mul, Nat.zero_add] at this
    rw [this]

end Gclql
namespace Gclql

/-! ## String-level occurrence lemmas -/

def noDolS (s : String) : Prop := '$' ∉ s.toList

/-- A boundary-starting string: nonempty, first char not a digit, not `$`. -/
def bStart (s : String) : Prop :=
  ∃ c cs, s.toList = c :: cs ∧ c.isDigit = false ∧ c ≠ '$'

theorem noDolS_append {a b : String} : noDolS (a ++ b) ↔ noDolS a ∧ noDolS b := by
  simp [noDolS, String.toList, String.data_append, List.mem_append, not_or]

theorem phOcc_no_dollar (s : String) (h : noDolS s) : phOcc s = [] :=
  phOccL_no_dollar s.toList h

theorem phOcc_append_norm (a b : String) (ha : noDolS a) :
    phOcc (a ++ b) = phOcc b := by
  show phOccL (a ++ b).toList = phOccL b.toList
  rw [show (a ++ b).toList = a.toList ++ b.toList from String.data_append a b]
  exact phOccL_append_norm a.toList b.toList ha

theorem phOcc_append_split (a b : String) (hb : bStart b) :
    phOcc (a ++ b) = phOcc a ++ phOcc b := by
  obtain ⟨c, cs, hcs, hdig, hdol⟩ := hb
  show phOccL (a ++ b).toList = phOccL a.toList ++ phOccL b.toList
  rw [show (a ++ b).toList = a.toList ++ b.toList from String.data_append a b, hcs]
  exact phOccL_append_boundary a.toList c cs hdig hdol

theorem phOcc_append_clean_right (a b : String) (hb : noDolS b) (hbs : bStart b) :
    phOcc (a ++ b) = phOcc a := by
  rw [phOcc_append_split a b hbs, phOcc_no_dollar b hb]
  simp

/-- Core placeholder fact: `$` followed by the decimal digits of `k`. -/
theorem phOcc_placeholder (k : Nat) : phOcc ("$" ++ natStr k) = [k] := by
  show phOccL ("$" ++ natStr k).toList = [k]
  rw [show ("$" ++ natStr k).toList = '$' :: natDigits k from String.data_append "$" (natStr k)]
  show phOccL ('$' :: natDigits k) = [k]
  have : phRun .norm ('$' :: natDigits k) = ([], .num k) := by
    show (if '$' = '$' then phRun .dollar (natDigits k) else phRun .norm (natDigits k)) = _
    rw [if_pos rfl]
    exact phRun_dollar_natDigits k
  simp [phOccL, this, phFin]

/-- Template: a `$`-free prefix, one placeholder, a `$`-free suffix starting
with a non-digit (or empty). -/
theorem phOcc_template (P S : String) (k : Nat)
    (hP : noDolS P) (hS : noDolS S) (hbs : S.toList = [] ∨ bStart S) :
    phOcc (P ++ ("$" ++ natStr k) ++ S) = [k] := by
  rcases hbs with hnil | hbs
  · have hSe : S = "" := by
      apply strDataEq
      exact hnil
    rw [hSe]
    have : P ++ ("$" ++ natStr k) ++ "" = P ++ ("$" ++ natStr k) := by
      apply strDataEq
      simp [String.data_append]
    rw [this, phOcc_append_norm P _ hP, phOcc_placeholder]
  · rw [phOcc_append_split _ S hbs, phOcc_append_norm P _ hP, phOcc_placeholder,
      phOcc_no_dollar S hS]
    simp

theorem phOcc_template2 (P : String) (k : Nat) (hP : noDolS P) :
    phOcc (P ++ ("$" ++ natStr k)) = [k] := by
  rw [phOcc_append_norm P _ hP, phOcc_placeholder]

end Gclql
namespace Gclql

/-! ## The occurrence specification and its combinators -/

/-- `OccSpec s lo hi`: the placeholders occurring in `s` are exactly
`lo+1 .. hi`, listed in nondecreasing order. -/
def OccSpec (s : String) (lo hi : Nat) : Prop :=
  List.Sorted (· ≤ ·) (phOcc s) ∧ ∀ x, x ∈ phOcc s ↔ (lo < x ∧ x ≤ hi)

theorem sorted_replicate (m x : Nat) : List.Sorted (· ≤ ·) (List.replicate m x) := by
  induction m with
  | zero => exact List.sorted_nil
  | succ n ih =>
    rw [List.replicate_succ, List.sorted_cons]
    exact ⟨fun b hb => (List.eq_of_mem_replicate hb) ▸ le_refl x, ih⟩

theorem occSpec_nil {s : String} (h : phOcc s = []) (lo : Nat) : OccSpec s lo lo := by
  rw [OccSpec, h]
  exact ⟨List.sorted_nil, fun x =>
    ⟨fun hx => by simp at hx, fun hx => absurd hx (by omega)⟩⟩

theorem occSpec_single {s : String} {lo : Nat} (h : phOcc s = [lo + 1]) :
    OccSpec s lo (lo + 1) := by
  rw [OccSpec, h]
  refine ⟨List.sorted_singleton _, ?_⟩
  intro x
  simp
  omega

theorem occSpec_replicate {s : String} {lo m : Nat} (h : phOcc s = List.replicate m (lo + 1))
    (hm : m ≠ 0) : OccSpec s lo (lo + 1) := by
  rw [OccSpec, h]
  constructor
  · exact sorted_replicate m (lo + 1)
  · intro x
    rw [List.mem_replicate]
    omega

theorem occSpec_concat {s a b : String} {lo mid hi : Nat}
    (hocc : phOcc s = phOcc a ++ phOcc b)
    (ha : OccSpec a lo mid) (hb : OccSpec b mid hi)
    (h1 : lo ≤ mid) (h2 : mid ≤ hi) : OccSpec s lo hi := by
  obtain ⟨sa, ma⟩ := ha
  obtain ⟨sb, mb⟩ := hb
  rw [OccSpec, hocc]
  constructor
  · rw [List.Sorted, List.pairwise_append]
    refine ⟨sa, sb, ?_⟩
    intro x hx y hy
    have h1' := (ma x).mp hx
    have h2' := (mb y).mp hy
    omega
  · intro x
    rw [List.mem_append, ma x, mb x]
    omega

end Gclql
namespace Gclql

/-! ## Dollar-freeness of resolved SQL fragments -/

instance (s : String) : Decidable (noDolS s) :=
  inferInstanceAs (Decidable ('$' ∉ s.toList))

theorem lookup_some_mem {α : Type} [BEq α] [LawfulBEq α] {β : Type}
    (k : α) (l : List (α × β)) (v : β) (h : List.lookup k l = some v) : (k, v) ∈ l := by
  induction l with
  | nil => simp [List.lookup] at h
  | cons p t ih =>
    rw [List.lookup] at h
    cases hk : (k == p.1) with
    | true =>
      rw [hk] at h
      have hkp : k = p.1 := eq_of_beq hk
      have hpv : p.2 = v := by
        cases h
        rfl
      have : p = (k, v) := by
        obtain ⟨a, b⟩ := p
        simp at hkp hpv
        simp [hkp, hpv]
      exact this ▸ List.mem_cons_self p t
    | false =>
      rw [hk] at h
      exact List.mem_cons_of_mem p (ih h)

theorem stripName_noDol (p : String) (h : noDolS p) : noDolS (stripName p) := by
  unfold stripName
  split
  · intro hm
    exact h (List.mem_of_mem_take hm)
  · exact h

theorem joinSep_noDol (sep : String) (hsep : noDolS sep) :
    ∀ l : List String, (∀ x ∈ l, noDolS x) → noDolS (joinSep sep l) := by
  intro l
  induction l with
  | nil => intro _; intro hm; simp [joinSep, String.toList] at hm
  | cons a t ih =>
    intro h
    match t with
    | [] => exact h a (List.mem_cons_self a [])
    | b :: t' =>
      show noDolS (a ++ sep ++ joinSep sep (b :: t'))
      rw [noDolS_append, noDolS_append]
      exact ⟨⟨h a (List.mem_cons_self _ _), hsep⟩,
        ih (fun x hx => h x (List.mem_cons_of_mem a hx))⟩

theorem noDolS_lit (s : String) (h : '$' ∉ s.toList) : noDolS s := h

theorem jsonFieldAccess_noDol (mc : String) (hmc : noDolS mc) (ps : List String)
    (hps : ∀ p ∈ ps, noDolS p) : noDolS (jsonFieldAccess mc ps) := by
  match ps with
  | [] => exact hmc
  | [p] =>
    show noDolS (mc ++ "->>'" ++ p ++ "'")
    rw [noDolS_append, noDolS_append, noDolS_append]
    exact ⟨⟨⟨hmc, by decide⟩, hps p (List.mem_cons_self p [])⟩, by decide⟩
  | p1 :: p2 :: pr =>
    show noDolS (mc ++ "->" ++
      joinSep "->" ((p1 :: p2 :: pr).dropLast.map (fun p => "'" ++ p ++ "'")) ++
      "->>'" ++ (p1 :: p2 :: pr).getLastD "" ++ "'")
    rw [noDolS_append, noDolS_append, noDolS_append, noDolS_append, noDolS_append]
    refine ⟨⟨⟨⟨⟨hmc, by decide⟩, ?_⟩, by decide⟩, ?_⟩, by decide⟩
    · apply joinSep_noDol "->" (by decide)
      intro x hx
      rw [List.mem_map] at hx
      obtain ⟨q, hq, rfl⟩ := hx
      rw [noDolS_append, noDolS_append]
      exact ⟨⟨by decide, hps q (List.dropLast_subset _ hq)⟩, by decide⟩
    · have hm := List.getLastD_mem_cons (p1 :: p2 :: pr) ""
      rcases List.mem_cons.mp hm with h0 | hmem
      · rw [h0]
        decide
      · exact hps _ hmem

theorem fieldToSql_noDol (parts : List String) (schema : List (String × String))
    (value : PyVal) (op : Option String) (mdf sf idf ef : List String) (F : String)
    (hschema : ∀ pr ∈ schema, noDolS pr.2)
    (hparts : ∀ p ∈ parts, noDolS p)
    (hres : fieldToSql parts schema value op mdf sf idf ef = .ok F) :
    noDolS F := by
  match parts with
  | [] => simp [fieldToSql] at hres
  | p0 :: rest =>
    have hp0 : noDolS p0 := hparts p0 (List.mem_cons_self p0 rest)
    have hbase : noDolS (stripName p0) := stripName_noDol p0 hp0
    have hmc : noDolS ((List.lookup "metadata" schema).getD "d.metadata") := by
      rcases hlm : List.lookup "metadata" schema with _ | v
      · exact by decide
      · exact hschema _ (lookup_some_mem "metadata" schema v hlm)
    rcases hval : validateOperationCompatibility (stripName p0) op value mdf sf idf with e | u
    · simp only [fieldToSql, hval] at hres
      simp at hres
    · cases u
      simp only [fieldToSql, hval] at hres
      split at hres
      · -- sql column falsy
        split at hres
        · -- entity branch
          cases hres
          show noDolS ("d." ++ stripName p0 ++ "_id")
          rw [noDolS_append, noDolS_append]
          exact ⟨⟨by decide, hbase⟩, by decide⟩
        · split at hres
          · -- auto metadata
            split at hres
            · cases hres
              show noDolS ("(" ++ jsonFieldAccess _ (p0 :: rest) ++ ")::numeric")
              rw [noDolS_append, noDolS_append]
              exact ⟨⟨by decide, jsonFieldAccess_noDol _ hmc _ hparts⟩, by decide⟩
            · cases hres
              exact jsonFieldAccess_noDol _ hmc _ hparts
          · simp at hres
      · -- sql column truthy
        rename_i hcol
        have hv : noDolS ((List.lookup (stripName p0) schema).getD "") := by
          rcases hl : List.lookup (stripName p0) schema with _ | v
          · rw [hl] at hcol
            simp at hcol
          · have := hschema _ (lookup_some_mem _ schema v hl)
            simp
            exact this
        split at hres
        · -- explicit metadata
          split at hres
          · cases hres
            show noDolS ("(" ++ jsonFieldAccess _ rest ++ ")::numeric")
            rw [noDolS_append, noDolS_append]
            refine ⟨⟨by decide, ?_⟩, by decide⟩
            exact jsonFieldAccess_noDol _ hv _
              (fun p hp => hparts p (List.mem_cons_of_mem p0 hp))
          · cases hres
            exact jsonFieldAccess_noDol _ hv _
              (fun p hp => hparts p (List.mem_cons_of_mem p0 hp))
        · cases hres
          exact hv

end Gclql

namespace Gclql

def ctxEq (a b : TState) : Prop :=
  a.schemaMapping = b.schemaMapping ∧ a.globalSearchFields = b.globalSearchFields ∧
  a.availableMetadataFields = b.availableMetadataFields ∧ a.stringFields = b.stringFields ∧
  a.idFields = b.idFields ∧ a.entityFields = b.entityFields

/-- The per-fragment conclusions of the translator invariant: schema context
unchanged, `param_index` still counts `params`, index monotone, and the SQL
fragment mentions exactly the placeholders `lo+1 .. hi` in order. -/
def StepSpec (st : TState) (s : String) (st' : TState) : Prop :=
  ctxEq st' st ∧ st'.paramIndex = st'.params.length ∧
  st.paramIndex ≤ st'.paramIndex ∧ OccSpec s st.paramIndex st'.paramIndex

theorem noDolS_sqlOpFor (op : String) (v : PyVal) (b : Bool) (hop : noDolS op) :
    noDolS (sqlOpAndParamFor op v b).1 := by
  unfold sqlOpAndParamFor
  split_ifs <;> first | exact hop | simp [noDolS, String.toList]

theorem occSpec_tpl2 {P s : String} {lo : Nat} (hP : noDolS P)
    (hs : s = P ++ ("$" ++ natStr (lo + 1))) : OccSpec s lo (lo + 1) :=
  occSpec_single (hs ▸ phOcc_template2 P (lo + 1) hP)

theorem occSpec_tpl {P S s : String} {lo : Nat} (hP : noDolS P) (hS : noDolS S)
    (hbs : S.toList = [] ∨ bStart S)
    (hs : s = P ++ ("$" ++ natStr (lo + 1)) ++ S) : OccSpec s lo (lo + 1) :=
  occSpec_single (hs ▸ phOcc_template P S (lo + 1) hP hS hbs)

theorem stepSpec_noParam {st : TState} {s : String} (hs : noDolS s)
    (hidx : st.paramIndex = st.params.length) : StepSpec st s st :=
  ⟨⟨rfl, rfl, rfl, rfl, rfl, rfl⟩, hidx, le_refl _,
    occSpec_nil (phOcc_no_dollar s hs) _⟩

theorem stepSpec_push {st : TState} {s : String} {p : PyVal}
    (hidx : st.paramIndex = st.params.length)
    (hocc : OccSpec s st.paramIndex (st.paramIndex + 1)) :
    StepSpec st s
      { st with paramIndex := st.paramIndex + 1, params := st.params ++ [p] } := by
  refine ⟨⟨rfl, rfl, rfl, rfl, rfl, rfl⟩, ?_, Nat.le_succ _, hocc⟩
  simp [hidx]

theorem translateFieldExists_spec (st : TState) (parts : List String) (F : String)
    (s : String) (st' : TState)
    (hF : noDolS F) (hidx : st.paramIndex = st.params.length)
    (h : translateFieldExists st parts F = (s, st')) :
    StepSpec st s st' := by
  simp only [translateFieldExists] at h
  split at h
  · split at h
    · cases h
      refine stepSpec_push hidx (occSpec_tpl2 (P := "d.metadata ? ") (by decide) ?_)
      rw [show ("d.metadata ? $" : String) = "d.metadata ? " ++ "$" from by decide,
        String.append_assoc]
    · cases h
      refine stepSpec_push hidx
        (occSpec_tpl (P := "jsonb_path_exists(d.metadata, ") (S := ")")
          (by decide) (by decide) (Or.inr ⟨')', [], rfl, by decide, by decide⟩) ?_)
      rw [show ("jsonb_path_exists(d.metadata, $" : String) =
          "jsonb_path_exists(d.metadata, " ++ "$" from by decide]
      simp only [String.append_assoc]
  · cases h
    exact stepSpec_noParam (noDolS_append.mpr ⟨hF, by decide⟩) hidx

theorem translateFieldNotExists_spec (st : TState) (parts : List String) (F : String)
    (s : String) (st' : TState)
    (hF : noDolS F) (hidx : st.paramIndex = st.params.length)
    (h : translateFieldNotExists st parts F = (s, st')) :
    StepSpec st s st' := by
  simp only [translateFieldNotExists] at h
  split at h
  · split at h
    · cases h
      refine stepSpec_push hidx
        (occSpec_tpl (P := "NOT (d.metadata ? ") (S := ")")
          (by decide) (by decide) (Or.inr ⟨')', [], rfl, by decide, by decide⟩) ?_)
      rw [show ("NOT (d.metadata ? $" : String) = "NOT (d.metadata ? " ++ "$" from by decide]
      simp only [String.append_assoc]
    · cases h
      refine stepSpec_push hidx
        (occSpec_tpl (P := "NOT jsonb_path_exists(d.metadata, ") (S := ")")
          (by decide) (by decide) (Or.inr ⟨')', [], rfl, by decide, by decide⟩) ?_)
      rw [show ("NOT jsonb_path_exists(d.metadata, $" : String) =
          "NOT jsonb_path_exists(d.metadata, " ++ "$" from by decide]
      simp only [String.append_assoc]
  · cases h
    exact stepSpec_noParam (noDolS_append.mpr ⟨hF, by decide⟩) hidx

end Gclql

namespace Gclql

theorem bStart_append {a : String} (b : String) (h : bStart a) : bStart (a ++ b) := by
  obtain ⟨c, cs, hcs, h1, h2⟩ := h
  refine ⟨c, cs ++ b.toList, ?_, h1, h2⟩
  show (a ++ b).data = _
  rw [String.data_append, show a.data = c :: cs from hcs]
  rfl

theorem translateComparison_spec (st : TState) (parts : List String) (op : String)
    (value : PyVal) (s : String) (st' : TState)
    (hschema : ∀ pr ∈ st.schemaMapping, noDolS pr.2)
    (hparts : ∀ p ∈ parts, noDolS p)
    (hop : noDolS op)
    (hidx : st.paramIndex = st.params.length)
    (h : translateComparison st parts op value = .ok (s, st')) :
    StepSpec st s st' := by
  cases hF : fieldToSql parts st.schemaMapping value (some op)
      st.availableMetadataFields st.stringFields st.idFields st.entityFields with
  | error e =>
    simp only [translateComparison, hF, exc_error_bind] at h
    exact (Except.noConfusion h)
  | ok F =>
    have hFnd : noDolS F :=
      fieldToSql_noDol parts st.schemaMapping value (some op)
        st.availableMetadataFields st.stringFields st.idFields st.entityFields F
        hschema hparts hF
    simp only [translateComparison, hF, exc_ok_bind] at h
    generalize hB : (decide (parts.headD "" = "last_edited_at") ||
      strEndsWith F "last_edited_at") = isL at h
    split at h
    · injection h with h
      exact translateFieldExists_spec st parts F s st' hFnd hidx h
    · split at h
      · injection h with h
        exact translateFieldNotExists_spec st parts F s st' hFnd hidx h
      · split at h
        · cases h
          exact stepSpec_noParam (noDolS_append.mpr ⟨hFnd, by decide⟩) hidx
        · split at h
          · split at h
            · cases h
              refine stepSpec_push hidx
                (occSpec_tpl (P := "(" ++ F ++ " IS NOT NULL AND NOT (" ++ F ++ " ILIKE ")
                  (S := "))") ?_ (by decide)
                  (Or.inr ⟨')', [')'], by decide, by decide, by decide⟩)
                  (by simp only [String.append_assoc]))
              simp only [noDolS_append]
              exact ⟨⟨⟨⟨by decide, hFnd⟩, by decide⟩, hFnd⟩, by decide⟩
            · split at h
              · cases h
                refine stepSpec_push hidx
                  (occSpec_tpl (P := "(" ++ F ++ " IS NOT NULL AND similarity(")
                    (S := ", " ++ F ++ ") > 0.7)") ?_ ?_
                    (Or.inr (bStart_append ") > 0.7)"
                      (bStart_append F ⟨',', [' '], by decide, by decide, by decide⟩)))
                    (by simp only [String.append_assoc]))
                · simp only [noDolS_append]
                  exact ⟨⟨by decide, hFnd⟩, by decide⟩
                · simp only [noDolS_append]
                  exact ⟨⟨by decide, hFnd⟩, by decide⟩
              · cases h
                refine stepSpec_push hidx
                  (occSpec_tpl (P := "(" ++ F ++ " IS NOT NULL AND " ++ F ++ " " ++
                      (sqlOpAndParamFor op value isL).1 ++ " ")
                    (S := ")") ?_ (by decide)
                    (Or.inr ⟨')', [], by decide, by decide, by decide⟩)
                    (by simp only [String.append_assoc]))
                simp only [noDolS_append]
                exact ⟨⟨⟨⟨⟨⟨by decide, hFnd⟩, by decide⟩, hFnd⟩, by decide⟩,
                  noDolS_sqlOpFor op value isL hop⟩, by decide⟩
          · split at h
            · cases h
              refine stepSpec_push hidx
                (occSpec_tpl (P := "NOT (" ++ F ++ " ILIKE ") (S := ")")
                  ?_ (by decide)
                  (Or.inr ⟨')', [], by decide, by decide, by decide⟩)
                  (by simp only [String.append_assoc]))
              simp only [noDolS_append]
              exact ⟨⟨by decide, hFnd⟩, by decide⟩
            · split at h
              · cases h
                refine stepSpec_push hidx
                  (occSpec_tpl (P := "similarity(") (S := ", " ++ F ++ ") > 0.7")
                    (by decide) ?_
                    (Or.inr (bStart_append ") > 0.7"
                      (bStart_append F ⟨',', [' '], by decide, by decide, by decide⟩)))
                    (by simp only [String.append_assoc]))
                simp only [noDolS_append]
                exact ⟨⟨by decide, hFnd⟩, by decide⟩
              · cases h
                refine stepSpec_push hidx
                  (occSpec_tpl2 (P := F ++ " " ++ (sqlOpAndParamFor op value isL).1 ++ " ")
                    ?_ (by simp only [String.append_assoc]))
                simp only [noDolS_append]
                exact ⟨⟨⟨hFnd, by decide⟩, noDolS_sqlOpFor op value isL hop⟩, by decide⟩

end Gclql

namespace Gclql

theorem placeholder_ne_empty (k : Nat) : ("$" ++ natStr k) ≠ "" := by
  intro he
  have hd := congrArg String.data he
  rw [show ("$" ++ natStr k).data = '$' :: (natStr k).data from String.data_append "$" (natStr k)]
    at hd
  exact List.noConfusion hd

theorem phOcc_buildSearchCondition (f : String) (q : Bool) (k : Nat) (hf : noDolS f) :
    phOcc (buildSearchCondition f ("$" ++ natStr k) q) = [k] := by
  unfold buildSearchCondition
  split_ifs
  · exact phOcc_template2 (f ++ "::text ~* ") k (noDolS_append.mpr ⟨hf, by decide⟩)
  · exact phOcc_template (f ++ "::text ILIKE '%' || ") (" || '%'") k
      (noDolS_append.mpr ⟨hf, by decide⟩) (by decide)
      (Or.inr ⟨' ', ("|| '%'" : String).toList, by decide, by decide, by decide⟩)
  · exact phOcc_template2 (f ++ " ~* ") k (noDolS_append.mpr ⟨hf, by decide⟩)
  · exact phOcc_template (f ++ " ILIKE '%' || ") (" || '%'") k
      (noDolS_append.mpr ⟨hf, by decide⟩) (by decide)
      (Or.inr ⟨' ', ("|| '%'" : String).toList, by decide, by decide, by decide⟩)

theorem phOcc_joinSep_conds (k : Nat) (sep : String) (hsep : noDolS sep) (hbs : bStart sep) :
    ∀ l : List String, (∀ x ∈ l, phOcc x = [k]) →
      phOcc (joinSep sep l) = List.replicate l.length k := by
  intro l
  induction l with
  | nil => intro _; exact phOcc_no_dollar "" (by decide)
  | cons a t ih =>
    intro hall
    cases t with
    | nil => simpa [joinSep] using hall a (by simp)
    | cons b t2 =>
      show phOcc (a ++ sep ++ joinSep sep (b :: t2)) = _
      rw [String.append_assoc,
        phOcc_append_split a (sep ++ joinSep sep (b :: t2)) (bStart_append _ hbs),
        phOcc_append_norm sep (joinSep sep (b :: t2)) hsep,
        hall a (by simp), ih (fun x hx => hall x (List.mem_cons_of_mem a hx))]
      rfl

theorem translateGlobalSearch_spec (st : TState) (v : String) (q : Bool)
    (s : String) (st' : TState)
    (hgsf : ∀ f ∈ st.globalSearchFields, noDolS f)
    (hidx : st.paramIndex = st.params.length)
    (h : translateGlobalSearch st v q = (s, st')) :
    StepSpec st s st' := by
  simp only [translateGlobalSearch] at h
  split at h
  · cases h
    exact stepSpec_noParam (by decide) hidx
  · cases hW : buildGlobalSearchClause (pyStrip v) q st.globalSearchFields st.paramIndex with
    | mk w p =>
      rw [hW] at h
      simp only [buildGlobalSearchClause] at hW
      split at hW
      · cases hW
        simp only [ne_eq, not_true_eq_false, if_false] at h
        cases h
        exact stepSpec_noParam (by decide) hidx
      · split at hW
        · cases hW
          simp only [ne_eq, not_true_eq_false, if_false] at h
          cases h
          exact stepSpec_noParam (by decide) hidx
        · rename_i hconds
          cases hW
          rw [if_pos (placeholder_ne_empty (st.paramIndex + 1))] at h
          cases h
          refine stepSpec_push hidx (occSpec_replicate
            (m := (List.map (fun f => buildSearchCondition f
              ("$" ++ natStr (st.paramIndex + 1)) q) st.globalSearchFields).length) ?_ ?_)
          · rw [phOcc_append_clean_right _ ")" (by decide)
                ⟨')', [], by decide, by decide, by decide⟩,
              phOcc_append_norm "(" _ (by decide)]
            exact phOcc_joinSep_conds (st.paramIndex + 1) " OR " (by decide)
              ⟨' ', ("OR " : String).toList, by decide, by decide, by decide⟩ _
              (fun x hx => by
                obtain ⟨f, hf, hfx⟩ := List.mem_map.mp hx
                rw [← hfx]
                exact phOcc_buildSearchCondition f q (st.paramIndex + 1) (hgsf f hf))
          · intro hm
            exact hconds (List.length_eq_zero.mp hm)

end Gclql

namespace Gclql

/-- Comparison nodes carry `$`-free raw field parts and operators (as the
lexer guarantees for parsed queries). -/
def astClean : Ast → Prop
  | .comparison parts op _ => (∀ p ∈ parts, noDolS p) ∧ noDolS op
  | .globalSearch _ _ => True
  | .notNode t => astClean t
  | .andNode l r => astClean l ∧ astClean r
  | .orNode l r => astClean l ∧ astClean r

theorem ctxEq_trans {a b c : TState} (h1 : ctxEq a b) (h2 : ctxEq b c) : ctxEq a c :=
  ⟨h1.1.trans h2.1, h1.2.1.trans h2.2.1, h1.2.2.1.trans h2.2.2.1,
    h1.2.2.2.1.trans h2.2.2.2.1, h1.2.2.2.2.1.trans h2.2.2.2.2.1,
    h1.2.2.2.2.2.trans h2.2.2.2.2.2⟩

theorem occSpec_congr {a b : String} {lo hi : Nat} (h : phOcc a = phOcc b)
    (hb : OccSpec b lo hi) : OccSpec a lo hi := by
  unfold OccSpec at hb ⊢
  rw [h]
  exact hb

theorem phOcc_binop (sl sr mid : String) (hm : noDolS mid) (hbs : bStart mid) :
    phOcc ("(" ++ sl ++ mid ++ sr ++ ")") = phOcc sl ++ phOcc sr := by
  rw [phOcc_append_clean_right _ ")" (by decide) ⟨')', [], by decide, by decide, by decide⟩,
    String.append_assoc ("(" ++ sl) mid sr,
    phOcc_append_split ("(" ++ sl) (mid ++ sr) (bStart_append sr hbs),
    phOcc_append_norm mid sr hm, phOcc_append_norm "(" sl (by decide)]

theorem phOcc_notWrap (s0 : String) : phOcc ("NOT (" ++ s0 ++ ")") = phOcc s0 := by
  rw [phOcc_append_clean_right _ ")" (by decide) ⟨')', [], by decide, by decide, by decide⟩,
    phOcc_append_norm "NOT (" s0 (by decide)]

theorem translate_spec (a : Ast) (st : TState) (s : String) (st' : TState)
    (hschema : ∀ pr ∈ st.schemaMapping, noDolS pr.2)
    (hgsf : ∀ f ∈ st.globalSearchFields, noDolS f)
    (hclean : astClean a)
    (hidx : st.paramIndex = st.params.length)
    (h : translate st a = .ok (s, st')) :
    StepSpec st s st' := by
  induction a generalizing st s st' with
  | comparison parts op value =>
    obtain ⟨hparts, hop⟩ := hclean
    exact translateComparison_spec st parts op value s st' hschema hparts hop hidx h
  | globalSearch v q =>
    injection h with h
    exact translateGlobalSearch_spec st v q s st' hgsf hidx h
  | notNode t ih =>
    simp only [translate] at h
    cases h1 : translate st t with
    | error e =>
      rw [h1] at h
      simp only [exc_error_bind] at h
      exact Except.noConfusion h
    | ok p =>
      obtain ⟨s0, st0⟩ := p
      rw [h1] at h
      simp only [exc_ok_bind] at h
      have S0 := ih st s0 st0 hschema hgsf hclean hidx h1
      cases h
      exact ⟨S0.1, S0.2.1, S0.2.2.1, occSpec_congr (phOcc_notWrap s0) S0.2.2.2⟩
  | andNode l r ihl ihr =>
    obtain ⟨hcl, hcr⟩ := hclean
    simp only [translate] at h
    cases h1 : translate st l with
    | error e =>
      rw [h1] at h
      simp only [exc_error_bind] at h
      exact Except.noConfusion h
    | ok p =>
      obtain ⟨sl, st1⟩ := p
      rw [h1] at h
      simp only [exc_ok_bind] at h
      cases h2 : translate st1 r with
      | error e =>
        rw [h2] at h
        simp only [exc_error_bind] at h
        exact Except.noConfusion h
      | ok p2 =>
        obtain ⟨sr, st2⟩ := p2
        rw [h2] at h
        simp only [exc_ok_bind] at h
        have SL := ihl st sl st1 hschema hgsf hcl hidx h1
        have SR := ihr st1 sr st2 (by rw [SL.1.1]; exact hschema)
          (by rw [SL.1.2.1]; exact hgsf) hcr SL.2.1 h2
        cases h
        exact ⟨ctxEq_trans SR.1 SL.1, SR.2.1, le_trans SL.2.2.1 SR.2.2.1,
          occSpec_concat
            (phOcc_binop sl sr " AND " (by decide)
              ⟨' ', ("AND " : String).toList, by decide, by decide, by decide⟩)
            SL.2.2.2 SR.2.2.2 SL.2.2.1 SR.2.2.1⟩
  | orNode l r ihl ihr =>
    obtain ⟨hcl, hcr⟩ := hclean
    simp only [translate] at h
    cases h1 : translate st l with
    | error e =>
      rw [h1] at h
      simp only [exc_error_bind] at h
      exact Except.noConfusion h
    | ok p =>
      obtain ⟨sl, st1⟩ := p
      rw [h1] at h
      simp only [exc_ok_bind] at h
      cases h2 : translate st1 r with
      | error e =>
        rw [h2] at h
        simp only [exc_error_bind] at h
        exact Except.noConfusion h
      | ok p2 =>
        obtain ⟨sr, st2⟩ := p2
        rw [h2] at h
        simp only [exc_ok_bind] at h
        have SL := ihl st sl st1 hschema hgsf hcl hidx h1
        have SR := ihr st1 sr st2 (by rw [SL.1.1]; exact hschema)
          (by rw [SL.1.2.1]; exact hgsf) hcr SL.2.1 h2
        cases h
        exact ⟨ctxEq_trans SR.1 SL.1, SR.2.1, le_trans SL.2.2.1 SR.2.2.1,
          occSpec_concat
            (phOcc_binop sl sr " OR " (by decide)
              ⟨' ', ("OR " : String).toList, by decide, by decide, by decide⟩)
            SL.2.2.2 SR.2.2.2 SL.2.2.1 SR.2.2.1⟩

end Gclql

namespace Gclql

/-- The token payloads that can reach a `Comparison` node (field segments
and the operator) are `$`-free. -/
def tokClean : Tok → Prop
  | .ident s => noDolS s
  | .opTok s => noDolS s
  | _ => True

theorem pickCand_some {a b : Option (Tok × Nat)} {x : Tok × Nat}
    (h : pickCand a b = some x) : a = some x ∨ b = some x := by
  cases a with
  | none =>
    cases b with
    | none => exact Option.noConfusion h
    | some y =>
      simp only [pickCand] at h
      exact Or.inr h
  | some p =>
    obtain ⟨t, n⟩ := p
    cases b with
    | none =>
      simp only [pickCand] at h
      exact Or.inl h
    | some p2 =>
      obtain ⟨t2, n2⟩ := p2
      simp only [pickCand] at h
      split at h
      · exact Or.inr h
      · exact Or.inl h

theorem opList_noDol :
    ∀ o ∈ (["=", "!=", ">", "<", ">=", "<=", ":", "!:", "=~", "!~", "#"] : List String),
      noDolS o := by
  intro o ho
  fin_cases ho <;> decide

theorem lexToken_clean (cs : List Char) (t : Tok) (rest : List Char)
    (h : lexToken cs = some (t, rest)) : tokClean t := by
  simp only [lexToken] at h
  split at h
  · cases h
    exact trivial
  · split at h
    · cases h
      exact trivial
    · split at h
      · cases h
        exact trivial
      · split at h
        · rename_i t0 n0 heq
          cases h
          rcases pickCand_some heq with h5 | hOp
          · rcases pickCand_some h5 with h4 | hSimple
            · rcases pickCand_some h4 with h3 | hIdent
              · rcases pickCand_some h3 with h2 | hNum
                · rcases pickCand_some h2 with hQ | hU
                  · repeat' split at hQ
                    all_goals first | exact Option.noConfusion hQ | (cases hQ; exact trivial)
                  · repeat' split at hU
                    all_goals first | exact Option.noConfusion hU | (cases hU; exact trivial)
                · repeat' split at hNum
                  all_goals first | exact Option.noConfusion hNum | (cases hNum; exact trivial)
              · split at hIdent
                · split at hIdent
                  · rename_i hfirst
                    cases hIdent
                    intro hmem
                    rcases List.mem_cons.mp hmem with hcd | hmem2
                    · rw [← hcd] at hfirst
                      exact absurd hfirst (by decide)
                    · exact absurd (List.mem_takeWhile_imp hmem2) (by decide)
                  · exact Option.noConfusion hIdent
                · exact Option.noConfusion hIdent
            · repeat' split at hSimple
              all_goals first | exact Option.noConfusion hSimple | (cases hSimple; exact trivial)
          · split at hOp
            · rename_i o ho
              cases hOp
              exact opList_noDol o (List.mem_of_find?_eq_some ho)
            · exact Option.noConfusion hOp
        · exact Option.noConfusion h

theorem lexLoop_clean (fuel : Nat) : ∀ (cs : List Char) (toks : List Tok),
    lexLoop fuel cs = some toks → ∀ t ∈ toks, tokClean t := by
  induction fuel with
  | zero => intro cs toks h; exact Option.noConfusion h
  | succ n ih =>
    intro cs toks h
    simp only [lexLoop] at h
    split at h
    · cases h
      intro t ht
      exact absurd ht (List.not_mem_nil t)
    · split at h
      · rename_i t0 rest0 heq
        cases hl : lexLoop n rest0 with
        | none =>
          rw [hl] at h
          exact Option.noConfusion h
        | some ts =>
          rw [hl] at h
          simp only [Option.map] at h
          cases h
          intro t ht
          rcases List.mem_cons.mp ht with h1 | h2
          · rw [h1]
            exact lexToken_clean _ t0 rest0 heq
          · exact ih rest0 ts hl t h2
      · exact Option.noConfusion h

end Gclql

namespace Gclql

theorem opt_some_bind {α β : Type} (a : α) (f : α → Option β) :
    (some a >>= f) = f a := rfl

theorem opt_none_bind {α β : Type} (f : α → Option β) :
    ((none : Option α) >>= f) = none := rfl

def pmodeClean : PMode → Prop
  | .exprLoop acc => astClean acc
  | .termLoop acc => astClean acc
  | _ => True

theorem pFieldRest_clean (fuel : Nat) : ∀ (acc : List String) (toks : List Tok)
    (parts : List String) (r : List Tok),
    (∀ p ∈ acc, noDolS p) → (∀ t ∈ toks, tokClean t) →
    pFieldRest fuel acc toks = some (parts, r) →
    (∀ p ∈ parts, noDolS p) ∧ (∀ t ∈ r, tokClean t) := by
  induction fuel with
  | zero => intro acc toks parts r _ _ h; exact Option.noConfusion h
  | succ n ih =>
    intro acc toks parts r hacc htoks h
    simp only [pFieldRest] at h
    split at h
    · rename_i s rest
      refine ih (acc ++ [s]) rest parts r ?_ (fun t ht => htoks t (by simp [ht])) h
      intro p hp
      rcases List.mem_append.mp hp with h1 | h2
      · exact hacc p h1
      · rw [List.mem_singleton.mp h2]
        exact htoks (.ident s) (by simp)
    · exact Option.noConfusion h
    · cases h
      exact ⟨hacc, htoks⟩

theorem parseM_clean (fuel : Nat) : ∀ (m : PMode) (toks : List Tok) (a : Ast) (r : List Tok),
    (∀ t ∈ toks, tokClean t) → pmodeClean m →
    parseM fuel m toks = some (a, r) →
    astClean a ∧ (∀ t ∈ r, tokClean t) := by
  induction fuel with
  | zero => intro m toks a r _ _ h; exact Option.noConfusion h
  | succ n ih =>
    intro m toks a r htoks hm h
    match m with
    | .expr =>
      simp only [parseM] at h
      cases h1 : parseM n .term toks with
      | none => rw [h1] at h; exact Option.noConfusion h
      | some p =>
        obtain ⟨t0, r0⟩ := p
        rw [h1] at h
        simp only [opt_some_bind] at h
        obtain ⟨hc0, hr0⟩ := ih .term toks t0 r0 htoks trivial h1
        exact ih (.exprLoop t0) r0 a r hr0 hc0 h
    | .exprLoop acc =>
      simp only [parseM] at h
      split at h
      · rename_i rest
        cases h1 : parseM n .term rest with
        | none => rw [h1] at h; exact Option.noConfusion h
        | some p =>
          obtain ⟨t0, r0⟩ := p
          rw [h1] at h
          simp only [opt_some_bind] at h
          obtain ⟨hc0, hr0⟩ := ih .term rest t0 r0 (fun t ht => htoks t (by simp [ht]))
            trivial h1
          exact ih (.exprLoop (.orNode acc t0)) r0 a r hr0 ⟨hm, hc0⟩ h
      · cases h
        exact ⟨hm, htoks⟩
    | .term =>
      simp only [parseM] at h
      cases h1 : parseM n .factor toks with
      | none => rw [h1] at h; exact Option.noConfusion h
      | some p =>
        obtain ⟨t0, r0⟩ := p
        rw [h1] at h
        simp only [opt_some_bind] at h
        obtain ⟨hc0, hr0⟩ := ih .factor toks t0 r0 htoks trivial h1
        exact ih (.termLoop t0) r0 a r hr0 hc0 h
    | .termLoop acc =>
      simp only [parseM] at h
      split at h
      · rename_i rest
        cases h1 : parseM n .factor rest with
        | none => rw [h1] at h; exact Option.noConfusion h
        | some p =>
          obtain ⟨t0, r0⟩ := p
          rw [h1] at h
          simp only [opt_some_bind] at h
          obtain ⟨hc0, hr0⟩ := ih .factor rest t0 r0 (fun t ht => htoks t (by simp [ht]))
            trivial h1
          exact ih (.termLoop (.andNode acc t0)) r0 a r hr0 ⟨hm, hc0⟩ h
      · cases h
        exact ⟨hm, htoks⟩
    | .factor =>
      simp only [parseM] at h
      split at h
      · rename_i rest
        cases h1 : parseM n .item rest with
        | none => rw [h1] at h; exact Option.noConfusion h
        | some p =>
          obtain ⟨t0, r0⟩ := p
          rw [h1] at h
          simp only [opt_some_bind] at h
          obtain ⟨hc0, hr0⟩ := ih .item rest t0 r0 (fun t ht => htoks t (by simp [ht]))
            trivial h1
          cases h
          exact ⟨hc0, hr0⟩
      · exact ih .item toks a r htoks trivial h
    | .item =>
      rcases toks with _ | ⟨t0, rest⟩
      · simp only [parseM] at h
        exact Option.noConfusion h
      · have htail : ∀ t ∈ rest, tokClean t := fun t ht => htoks t (by simp [ht])
        cases t0
        case lpar =>
          simp only [parseM] at h
          cases h1 : parseM n .expr rest with
          | none => rw [h1] at h; exact Option.noConfusion h
          | some p =>
            obtain ⟨e0, r0⟩ := p
            rw [h1] at h
            simp only [opt_some_bind] at h
            obtain ⟨hc0, hr0⟩ := ih .expr rest e0 r0 htail trivial h1
            rcases r0 with _ | ⟨t1, r1⟩
            · exact Option.noConfusion h
            · have hr1 : ∀ t ∈ r1, tokClean t := fun t ht => hr0 t (by simp [ht])
              cases t1
              case rpar =>
                cases h
                exact ⟨hc0, hr1⟩
              all_goals exact Option.noConfusion h
        case ident s =>
          have hs : noDolS s := htoks (.ident s) (by simp)
          rcases rest with _ | ⟨t1, rest2⟩
          · simp only [parseM] at h
            cases h
            exact ⟨trivial, fun t ht => absurd ht (List.not_mem_nil t)⟩
          · cases t1
            case dot =>
              simp only [parseM] at h
              cases hPF : pFieldRest ((Tok.dot :: rest2).length + 1) [s] (Tok.dot :: rest2) with
              | none => rw [hPF] at h; exact Option.noConfusion h
              | some pr =>
                obtain ⟨parts0, r1⟩ := pr
                rw [hPF] at h
                simp only [opt_some_bind] at h
                obtain ⟨hparts, hr1⟩ := pFieldRest_clean _ [s] (Tok.dot :: rest2) parts0 r1
                  (by intro p hp; rw [List.mem_singleton.mp hp]; exact hs)
                  (fun t ht => htoks t (by simp [ht])) hPF
                rcases r1 with _ | ⟨t2, r2⟩
                · exact Option.noConfusion h
                · cases t2
                  case opTok o =>
                    have ho : noDolS o := hr1 (.opTok o) (by simp)
                    have hr2 : ∀ t ∈ r2, tokClean t := fun t ht => hr1 t (by simp [ht])
                    rcases r2 with _ | ⟨v, r3⟩
                    · cases h
                      exact ⟨⟨hparts, ho⟩, fun t ht => absurd ht (List.not_mem_nil t)⟩
                    · simp only [] at h
                      split at h
                      · cases hv : tokValue v with
                        | none => rw [hv] at h; exact Option.noConfusion h
                        | some pv =>
                          rw [hv] at h
                          simp only [opt_some_bind] at h
                          cases h
                          exact ⟨⟨hparts, ho⟩, fun t ht => hr2 t (by simp [ht])⟩
                      · cases h
                        exact ⟨⟨hparts, ho⟩, hr2⟩
                  all_goals exact Option.noConfusion h
            case opTok o1 =>
              simp only [parseM] at h
              cases hPF : pFieldRest ((Tok.opTok o1 :: rest2).length + 1) [s]
                  (Tok.opTok o1 :: rest2) with
              | none => rw [hPF] at h; exact Option.noConfusion h
              | some pr =>
                obtain ⟨parts0, r1⟩ := pr
                rw [hPF] at h
                simp only [opt_some_bind] at h
                obtain ⟨hparts, hr1⟩ := pFieldRest_clean _ [s] (Tok.opTok o1 :: rest2) parts0 r1
                  (by intro p hp; rw [List.mem_singleton.mp hp]; exact hs)
                  (fun t ht => htoks t (by simp [ht])) hPF
                rcases r1 with _ | ⟨t2, r2⟩
                · exact Option.noConfusion h
                · cases t2
                  case opTok o =>
                    have ho : noDolS o := hr1 (.opTok o) (by simp)
                    have hr2 : ∀ t ∈ r2, tokClean t := fun t ht => hr1 t (by simp [ht])
                    rcases r2 with _ | ⟨v, r3⟩
                    · cases h
                      exact ⟨⟨hparts, ho⟩, fun t ht => absurd ht (List.not_mem_nil t)⟩
                    · simp only [] at h
                      split at h
                      · cases hv : tokValue v with
                        | none => rw [hv] at h; exact Option.noConfusion h
                        | some pv =>
                          rw [hv] at h
                          simp only [opt_some_bind] at h
                          cases h
                          exact ⟨⟨hparts, ho⟩, fun t ht => hr2 t (by simp [ht])⟩
                      · cases h
                        exact ⟨⟨hparts, ho⟩, hr2⟩
                  all_goals exact Option.noConfusion h
            all_goals simp only [parseM] at h
            all_goals cases h
            all_goals exact ⟨trivial, fun t ht => htoks t (by simp [ht])⟩
        case numTok s2 =>
          simp only [parseM, tokGlobal] at h
          split at h
          · cases h
            exact ⟨trivial, htail⟩
          · exact Option.noConfusion h
        all_goals try simp only [parseM] at h
        all_goals first
          | exact Option.noConfusion h
          | (cases h; exact ⟨trivial, fun t ht => htoks t (by simp [ht])⟩)

theorem parseGclql_clean (s : String) (a : Ast) (h : parseGclql s = some a) :
    astClean a := by
  simp only [parseGclql] at h
  split at h
  · exact Option.noConfusion h
  · rename_i toks hlex
    cases hp : parseM (8 * (toks.length + 1)) .expr toks with
    | none => rw [hp] at h; exact Option.noConfusion h
    | some pr =>
      obtain ⟨a0, r0⟩ := pr
      rw [hp] at h
      rcases r0 with _ | ⟨t1, r1⟩
      · have hres := (parseM_clean (8 * (toks.length + 1)) .expr toks a0 []
          (lexLoop_clean (s.toList.length + 1) s.toList toks hlex) trivial hp).1
        cases h
        exact hres
      · exact Option.noConfusion h

end Gclql

namespace Gclql

theorem phOcc_between {P S : String} (w : String) (hP : noDolS P) (hS : noDolS S)
    (hbs : bStart S) : phOcc (P ++ w ++ S) = phOcc w := by
  rw [phOcc_append_clean_right (P ++ w) S hS hbs, phOcc_append_norm P w hP]

/-- C3: for every query string accepted by the grammar (the direct parse
path) and translated without error, the `$n` placeholders of the returned
select SQL are exactly `$1 .. $len(params)` — one per appended parameter,
numbered contiguously from 1 — and they appear in nondecreasing order, i.e.
in exactly the order the parameters are appended (`OccSpec sq 0 ps.length`
says the placeholder-number list of `sq` is sorted and its members are
exactly the `k` with `1 ≤ k ≤ ps.length`).  The static scaffolding of the
query (schema values, select fields, joins, order-by) is assumed `$`-free,
as any `$` sign there would be indistinguishable from a placeholder. -/
theorem parseQuery_placeholder_arity (st : QPState)
    (queryString sortBy sortOrder : String)
    (ast : Ast) (cq sq : String) (ps : List PyVal)
    (hparse : parseGclql queryString = some ast)
    (hschema : ∀ pr ∈ st.schemaMapping, noDolS pr.2)
    (hgsf : ∀ f ∈ dynamicGlobalSearchFields st (extractSearchTerm ast), noDolS f)
    (hsel : noDolS (dynamicSelectFields st))
    (hfj : noDolS (fromAndJoins st))
    (hob : ∀ ob, buildOrderByClause st sortBy sortOrder = Except.ok ob → noDolS ob)
    (hq : parseQuery st queryString sortBy sortOrder = .ok (cq, sq, ps)) :
    OccSpec sq 0 ps.length := by
  simp only [parseQuery] at hq
  split at hq
  · exact Except.noConfusion hq
  · split at hq
    · -- empty / all-whitespace query: no placeholders, no params
      split at hq
      · exact Except.noConfusion hq
      · rename_i ob hObEq
        have hobn := hob ob hObEq
        cases hq
        refine occSpec_nil (phOcc_no_dollar _ ?_) 0
        simp only [noDolS_append]
        exact ⟨⟨⟨⟨⟨⟨by decide, hsel⟩, by decide⟩, hfj⟩, by decide⟩, hobn⟩, by decide⟩
    · rw [hparse] at hq
      simp only [] at hq
      cases hT : translate
          (freshTranslator st (dynamicGlobalSearchFields st (extractSearchTerm ast))) ast with
      | error e =>
        rw [hT] at hq
        exact Except.noConfusion hq
      | ok p =>
        obtain ⟨w, tstF⟩ := p
        rw [hT] at hq
        simp only [] at hq
        split at hq
        · exact Except.noConfusion hq
        · rename_i ob hObEq
          have hobn := hob ob hObEq
          have hS := translate_spec ast
            (freshTranslator st (dynamicGlobalSearchFields st (extractSearchTerm ast)))
            w tstF hschema hgsf (parseGclql_clean queryString ast hparse) rfl hT
          cases hq
          refine occSpec_congr ?_ (hS.2.1 ▸ hS.2.2.2)
          rw [show "\n            SELECT " ++ dynamicSelectFields st ++ "\n            " ++
              fromAndJoins st ++ "\n            WHERE " ++ w ++ "\n            " ++ ob ++
              "\n        " =
              ("\n            SELECT " ++ dynamicSelectFields st ++ "\n            " ++
                fromAndJoins st ++ "\n            WHERE ") ++ w ++
              ("\n            " ++ ob ++ "\n        ") from by
            simp only [String.append_assoc]]
          refine phOcc_between w ?_ ?_ ?_
          · simp only [noDolS_append]
            exact ⟨⟨⟨⟨by decide, hsel⟩, by decide⟩, hfj⟩, by decide⟩
          · simp only [noDolS_append]
            exact ⟨⟨by decide, hobn⟩, by decide⟩
          · exact bStart_append "\n        "
              (bStart_append ob
                ⟨'\n', ("            " : String).toList, by decide, by decide, by decide⟩)

end Gclql

namespace Gclql

set_option maxRecDepth 8000 in
/-- Witness for C3 at a concrete setup: `tag:*` on `exState` yields one
parameter and a select query whose only placeholder is `$1`. -/
theorem parseQuery_placeholder_arity_witness :
    OccSpec "\n            SELECT d.id,\nd.uuid,\nd.name,\nd.status,\nd.metadata,\nd.last_edited_at\n            FROM documents d\n            WHERE d.metadata ? $1\n            ORDER BY d.name ASC, d.id ASC\n        " 0 1 :=
  parseQuery_placeholder_arity exState "tag:*" "name" "asc"
    (Ast.comparison ["tag"] ":" (PyVal.vstr "*"))
    "SELECT COUNT(*) FROM documents d WHERE d.metadata ? $1"
    "\n            SELECT d.id,\nd.uuid,\nd.name,\nd.status,\nd.metadata,\nd.last_edited_at\n            FROM documents d\n            WHERE d.metadata ? $1\n            ORDER BY d.name ASC, d.id ASC\n        "
    [PyVal.vstr "tag"]
    (by decide) (by decide) (by decide) (by decide) (by decide)
    (by
      intro ob hOb
      have heval : buildOrderByClause exState "name" "asc" =
          Except.ok "ORDER BY d.name ASC, d.id ASC" := by decide
      rw [heval] at hOb
      injection hOb with h2
      rw [← h2]
      decide)
    (by decide)

end Gclql
